import Mathlib

/-!
# Torrent descriptor utilities of the downloader (`cmd/downloader/downloader/util.go`)

A shallow embedding of `verifyTorrent`, `mmapFile`, `CreateTorrentFile`,
`CreateTorrentFileIfNotExists`, `BuildInfoBytesForFile` and
`BuildTorrentFilesIfNeed`, with the file system passed explicitly.

Conventions of the embedding:
* a path is the list of its components, `filepath.Join` is list append;
* a file system is an association list from paths to the bytes of regular files;
  entries that cannot be opened, stat-ed or mapped (directories, devices,
  unreadable files) are given separately as `Obstacles`;
* a Go `error` result is an `Option Error` (`none` is `nil`);
* the SHA-1 function is a parameter `sha1`;
* lengths, offsets and indices are natural numbers (the `int64` range is not
  reached by file sizes and is not modelled);
* log and progress output (`fmt.Printf`, `log.Info`) is left out.
-/

namespace Downloader

/-- A byte string; each element stands for one byte. -/
abbrev Bytes := List Nat

/-- A file path, as the list of its components. -/
abbrev Path := List String

/-- A piece digest (20 bytes for SHA-1). -/
abbrev Digest := List Nat

/-- The error values that occur in `util.go`. -/
inductive Error where
  /-- The `*PathError` of `os.Open` and `os.Stat` for a path that does not exist. -/
  | notExist (path : Path)
  /-- Any other failure of a file-system call on `path`. -/
  | ioFailure (path : Path)
  /-- The value of `fmt.Errorf("file %q has wrong length", filename)`. -/
  | wrongLength (filename : Path)
  /-- The value of `ctx.Err()` once the context is done. -/
  | canceled
  /-- A failure of `bencode.Marshal`. -/
  | marshal
  /-- A failure reported by the descriptor builder. -/
  | build
  /-- An error made up by a caller, for instance inside a consumer. -/
  | custom (code : Nat)
  deriving DecidableEq, Repr

/-- Modelled from the spec: the type `metainfo.FileInfo` (spec §3 `FileEntry`), a
path relative to the content root and the recorded length. -/
structure FileInfo where
  Length : Nat
  Path : List String
  deriving DecidableEq, Repr

/-- Modelled from the spec: the type `metainfo.Info` (spec §3 `Descriptor`, with the
single-file `Length` of §6). `Pieces` holds one digest per piece, in order. -/
structure Info where
  PieceLength : Nat
  Pieces : List Digest
  Name : String
  Length : Nat
  Files : List FileInfo
  deriving DecidableEq, Repr

/-- Modelled from the spec: `Info.UpvertedFiles` of the metainfo library. A
single-file descriptor (§6: top-level `length`, no file list) is read as one
file entry with an empty relative path. -/
def Info.UpvertedFiles (info : Info) : List FileInfo :=
  if info.Files = [] then [{ Length := info.Length, Path := [] }] else info.Files

/-- Modelled from the spec: `Info.TotalLength`, the sum of the recorded file lengths. -/
def Info.TotalLength (info : Info) : Nat :=
  (info.UpvertedFiles.map FileInfo.Length).sum

/-- Modelled from the spec: `Info.NumPieces`, the number of stored piece digests. -/
def Info.NumPieces (info : Info) : Nat :=
  info.Pieces.length

/-- Modelled from the spec: the type `metainfo.Piece`, a descriptor and a piece index. -/
structure Piece where
  Info : Info
  i : Nat

/-- The call `info.Piece(i)`. -/
def Info.Piece (info : Info) (i : Nat) : Piece :=
  { Info := info, i := i }

/-- Modelled from the spec: `Piece.Offset`, the start `i * pieceLength` of the piece
in the virtual span (§3). -/
def Piece.Offset (p : Piece) : Nat :=
  p.i * p.Info.PieceLength

/-- Modelled from the spec: `Piece.Length`, the size of the byte range
`[i*pieceLength, min(i*pieceLength+pieceLength, totalLength))` of §3. -/
def Piece.Length (p : Piece) : Nat :=
  min (p.i * p.Info.PieceLength + p.Info.PieceLength) p.Info.TotalLength
    - p.i * p.Info.PieceLength

/-- Modelled from the spec: `Piece.Hash`, the stored digest at the piece's index. -/
def Piece.Hash (p : Piece) : Digest :=
  p.Info.Pieces.getD p.i []

/-- A file system: the regular files with their contents. A listed path opens and
can be mapped; what else exists is described by `Obstacles`. -/
abbrev FS := List (Path × Bytes)

/-- The content of the file at `name`, if there is one (first entry wins). -/
def FS.read : FS → Path → Option Bytes
  | [], _ => none
  | (p, b) :: rest, name => if p = name then some b else FS.read rest name

/-- Replace or create the file at `name` with content `data`. -/
def FS.write (fs : FS) (name : Path) (data : Bytes) : FS :=
  (name, data) :: fs.filter (fun e => decide (e.1 ≠ name))

/-- An entry of the file system that is no mappable regular file: `os.Open` fails
on it (no permission), or `f.Stat` fails on the opened handle, or it opens and
`Stat` reports `size` but `mmap.MapRegion` fails (a directory, a device). Each
carries the size it has on disk and the error returned. -/
inductive Obstacle where
  | openFails (size : Nat) (err : Error)
  | statFails (size : Nat) (err : Error)
  | mapFails (size : Nat) (err : Error)
  deriving DecidableEq, Repr

/-- The entries of the file system other than the regular files of `FS`, by path.
An entry listed in `FS` is a regular file whatever this says. -/
abbrev Obstacles := Path → Option Obstacle

/-- The on-disk size of an entry that is no mappable regular file. -/
def Obstacle.size : Obstacle → Nat
  | .openFails size _ => size
  | .statFails size _ => size
  | .mapFails size _ => size

/-- The on-disk length of the entry at `name`, if there is one. -/
def diskLength (fs : FS) (obs : Obstacles) (name : Path) : Option Nat :=
  match fs.read name with
  | some content => some content.length
  | none => (obs name).map Obstacle.size

/-- A handle returned by `os.Open`, with what `f.Stat()` and
`mmap.MapRegion(f, -1, mmap.RDONLY, mmap.COPY, 0)` will return on it. -/
structure OpenFile where
  stat : Except Error Nat
  mapRegion : Except Error Bytes

/-- The call `os.Open(name)`. -/
def osOpen (fs : FS) (obs : Obstacles) (name : Path) : Except Error OpenFile :=
  match fs.read name with
  | some content => .ok { stat := .ok content.length, mapRegion := .ok content }
  | none =>
    match obs name with
    | none => .error (.notExist name)
    | some (.openFails _ err) => .error err
    | some (.statFails _ err) => .ok { stat := .error err, mapRegion := .error err }
    | some (.mapFails size err) => .ok { stat := .ok size, mapRegion := .error err }

/-- The function `mmapFile`: the error of `os.Open`, else the error of `f.Stat`,
else the nil region for size 0 (nothing is mapped), else the result of
`mmap.MapRegion` over the whole file. -/
def mmapFile (fs : FS) (obs : Obstacles) (name : Path) : Except Error Bytes :=
  match osOpen fs obs name with
  | .error err => .error err
  | .ok f =>
    match f.stat with
    | .error err => .error err
    | .ok size =>
      if size = 0 then .ok []
      else f.mapRegion

/-- Modelled from the spec: `mmap_span.MMapSpan` (§4.1 virtual span), the ordered
mapped regions. -/
abbrev MMapSpan := List Bytes

/-- The call `span.Append(mm)`. -/
def MMapSpan.Append (span : MMapSpan) (mm : Bytes) : MMapSpan :=
  span ++ [mm]

/-- Modelled from the spec: `MMapSpan.ReadAt` (§4.1 `read`): the bytes found from
global offset `off` on, at most `n` of them, walking the regions in order and
stitching across their boundaries. -/
def MMapSpan.ReadAt : MMapSpan → Nat → Nat → Bytes
  | [], _, _ => []
  | r :: rs, off, n =>
    if r.length ≤ off then MMapSpan.ReadAt rs (off - r.length) n
    else
      let chunk := (r.drop off).take n
      chunk ++ MMapSpan.ReadAt rs 0 (n - chunk.length)

/-- The statement `io.Copy(hash, io.NewSectionReader(span, off, n))`: the bytes fed
to the hash are those of the section; the end of the span ends the copy
(`io.EOF` is not an error for `io.Copy`), and neither a mapped region nor a
hash write fails. -/
def copySection (span : MMapSpan) (off n : Nat) : Except Error Bytes :=
  .ok (span.ReadAt off n)

/-- One call of the consumer as observed from outside: the piece index, the flag,
and what the consumer returned. -/
structure Call where
  index : Nat
  good : Bool
  ret : Option Error
  deriving DecidableEq, Repr

/-- A consumer closure with captured state `σ`: `func(i int, good bool) error`. -/
abbrev Consumer (σ : Type) := σ → Nat → Bool → Option Error × σ

/-- What a run of `verifyTorrent` leaves behind: the returned error, the
consumer's state, and the consumer calls made, oldest first. -/
structure VerifyResult (σ : Type) where
  err : Option Error
  state : σ
  calls : List Call

/-- The first loop of `verifyTorrent`: map every file of the descriptor and check
its length, appending the regions to the span. -/
def openSpan (fs : FS) (obs : Obstacles) (root : Path) (name : String) :
    List FileInfo → MMapSpan → Except Error MMapSpan
  | [], span => .ok span
  | file :: rest, span =>
    let filename := root ++ [name] ++ file.Path
    match mmapFile fs obs filename with
    | .error err => .error err
    | .ok mm =>
      if mm.length ≠ file.Length then .error (.wrongLength filename)
      else openSpan fs obs root name rest (span.Append mm)

/-- The second loop of `verifyTorrent`, `for i < numPieces`, with `todo` iterations
left and `i` the current index. -/
def verifyLoop {σ : Type} (sha1 : Bytes → Digest) (info : Info) (span : MMapSpan)
    (consumer : Consumer σ) : Nat → Nat → σ → List Call → VerifyResult σ
  | 0, _, s, calls => { err := none, state := s, calls := calls }
  | todo + 1, i, s, calls =>
    let p := info.Piece i
    match copySection span p.Offset p.Length with
    | .error err => { err := some err, state := s, calls := calls }
    | .ok data =>
      let good := decide (sha1 data = p.Hash)
      let r := consumer s i good
      let calls1 := calls ++ [{ index := i, good := good, ret := r.1 }]
      match r.1 with
      | some err => { err := some err, state := r.2, calls := calls1 }
      | none => verifyLoop sha1 info span consumer todo (i + 1) r.2 calls1

/-- The function `verifyTorrent`. The call `span.InitIndex()` only prepares the
lookup of regions by offset, which `MMapSpan.ReadAt` does by walking the list. -/
def verifyTorrent {σ : Type} (sha1 : Bytes → Digest) (fs : FS) (obs : Obstacles) (info : Info)
    (root : Path) (consumer : Consumer σ) (s : σ) : VerifyResult σ :=
  match openSpan fs obs root info.Name info.UpvertedFiles [] with
  | .error err => { err := some err, state := s, calls := [] }
  | .ok span => verifyLoop sha1 info span consumer info.NumPieces 0 s []

/-- The bytes `[a, b)` of `data` (empty when `b ≤ a`). -/
def slice (data : Bytes) (a b : Nat) : Bytes :=
  (data.drop a).take (b - a)

/-- The on-disk content of the descriptor's files, concatenated in descriptor
order (an entry that is no regular file contributes nothing). -/
def diskContent (fs : FS) (root : Path) (info : Info) : Bytes :=
  (info.UpvertedFiles.map (fun file => (fs.read (root ++ [info.Name] ++ file.Path)).getD [])).flatten

/-- The shape of the consumer calls a scan makes from index `i` with `todo`
iterations left, together with the error it returns: indices go up by one, a
call that returns an error is the last one and its error is the result, and a
scan that returns `nil` has made all `todo` calls. -/
def traceShape : Nat → Nat → List Call → Option Error → Prop
  | _, todo, [], err => todo = 0 ∧ err = none
  | i, todo, c :: rest, err =>
    0 < todo ∧ c.index = i ∧
      (match c.ret with
       | some e => rest = [] ∧ err = some e
       | none => traceShape (i + 1) (todo - 1) rest err)

/-- The files of a list are regular files that have their recorded lengths. -/
def filesMatch (fs : FS) (root : Path) (name : String) (files : List FileInfo) : Prop :=
  ∀ file ∈ files, ∃ content, fs.read (root ++ [name] ++ file.Path) = some content
    ∧ content.length = file.Length

/-- Function `mmapFile` maps every file of the list to a region of the recorded
length. -/
def filesMap (fs : FS) (obs : Obstacles) (root : Path) (name : String)
    (files : List FileInfo) : Prop :=
  ∀ file ∈ files, ∃ mm, mmapFile fs obs (root ++ [name] ++ file.Path) = .ok mm
    ∧ mm.length = file.Length

/-- Whether piece `i` is good in the claim's words: the digest of the bytes
`[i*pieceLength, min(i*pieceLength+pieceLength, totalLength))` of the
concatenated on-disk files equals the stored digest at `i`. -/
def pieceGood (sha1 : Bytes → Digest) (fs : FS) (root : Path) (info : Info) (i : Nat) : Bool :=
  decide (sha1 (slice (diskContent fs root info) (i * info.PieceLength)
    (min (i * info.PieceLength + info.PieceLength) info.TotalLength))
      = info.Pieces.getD i [])

/-- Modelled from the spec: piece generation of the descriptor builder (§4.2): for
each piece index `i` from `0` to `ceil(totalLength/pieceLength)-1`, the digest
of the bytes `[i*pieceLength, min(i*pieceLength+pieceLength, totalLength))`. -/
def generatePieces (sha1 : Bytes → Digest) (pieceLength : Nat) (data : Bytes) : List Digest :=
  (List.range ((data.length + pieceLength - 1) / pieceLength)).map
    (fun i => sha1 (slice data (i * pieceLength)
      (min (i * pieceLength + pieceLength) data.length)))

/-- Modelled from the spec: the type `metainfo.MetaInfo`, the envelope of §6 around
the encoded descriptor. -/
structure MetaInfo where
  InfoBytes : Bytes
  Announce : String
  AnnounceList : List (List String)
  CreationDate : Int
  Comment : String
  CreatedBy : String
  deriving DecidableEq, Repr

/-- What `util.go` takes from other packages: the tier list `Trackers` (built from
the `trackers` package), `torrentcfg.DefaultPieceSize`,
`snapshotsync.IsCorrectFileName`, and the bencode encoders behind
`bencode.Marshal(info)` and `mi.Write`. -/
structure Config where
  Trackers : List (List String)
  DefaultPieceSize : Nat
  IsCorrectFileName : String → Bool
  marshalInfo : Info → Except Error Bytes
  encodeMetaInfo : MetaInfo → Bytes

/-- A `context.Context` as a loop sees it: `Done()` is closed from iteration
`firesAt` on (never, for `none`). -/
structure Context where
  firesAt : Option Nat
  deriving DecidableEq, Repr

/-- Whether `ctx.Done()` is closed at iteration `i`. -/
def Context.isDone (ctx : Context) (i : Nat) : Bool :=
  match ctx.firesAt with
  | none => false
  | some k => decide (k ≤ i)

/-- The value of `ctx.Err()` once the context is done. -/
def Context.Err (_ctx : Context) : Error :=
  Error.canceled

/-- What one run meets outside the file contents: the clock, the caller's context,
and the faults of the operating system. `createFails name` makes `os.Create`
fail, `writeFault name = some k` makes `mi.Write` fail after `k` bytes,
`statFails name` makes `os.Stat` fail with an error other than not-exist,
`readDirFails dir` makes `ioutil.ReadDir` fail, and `tickTaken i` says that the
`select` of iteration `i` takes the ticker case. -/
structure Env where
  now : Int
  ctx : Context
  createFails : Path → Bool
  writeFault : Path → Option Nat
  statFails : Path → Bool
  readDirFails : Path → Bool
  tickTaken : Nat → Bool

/-- A call made on a file handle: `os.Create`, a write of `data`, `Sync` (with
whether the handle was still open, so that the fsync took place), `Close`. -/
inductive FileOp where
  | create (name : Path)
  | write (name : Path) (data : Bytes)
  | sync (name : Path) (handleOpen : Bool)
  | close (name : Path)
  deriving DecidableEq, Repr

/-- The file system together with the calls made on descriptor file handles so
far, oldest first. -/
structure State where
  fs : FS
  ops : List FileOp
  deriving DecidableEq, Repr

/-- An `*os.File` handle. -/
structure File where
  name : Path
  closed : Bool
  deriving DecidableEq, Repr

/-- The call `os.Create(name)`: create or truncate the file. -/
def osCreate (env : Env) (st : State) (name : Path) : Except Error (File × State) :=
  if env.createFails name then .error (.ioFailure name)
  else .ok ({ name := name, closed := false },
    { fs := st.fs.write name [], ops := st.ops ++ [.create name] })

/-- The call `os.Stat(name)`. -/
def osStat (env : Env) (fs : FS) (name : Path) : Except Error Unit :=
  if env.statFails name then .error (.ioFailure name)
  else match fs.read name with
    | none => .error (.notExist name)
    | some _ => .ok ()

/-- The test `errors.Is(err, os.ErrNotExist)`. -/
def isNotExist : Error → Bool
  | .notExist _ => true
  | _ => false

/-- The call `file.Sync()`: an fsync if the handle is open, `os.ErrClosed` without
effect if it is closed. -/
def File.Sync (file : File) (st : State) : Option Error × File × State :=
  if file.closed then
    (some (.ioFailure file.name), file, { st with ops := st.ops ++ [.sync file.name false] })
  else (none, file, { st with ops := st.ops ++ [.sync file.name true] })

/-- The call `file.Close()`. -/
def File.Close (file : File) (st : State) : Option Error × File × State :=
  if file.closed then (some (.ioFailure file.name), file, st)
  else (none, { file with closed := true }, { st with ops := st.ops ++ [.close file.name] })

/-- The call `mi.Write(file)`: the encoding of the envelope goes to the file; a
write fault leaves only the first `k` bytes there. -/
def MetaInfo.Write (cfg : Config) (env : Env) (mi : MetaInfo) (file : File) (st : State) :
    Option Error × State :=
  let data := cfg.encodeMetaInfo mi
  match env.writeFault file.name with
  | none => (none, { fs := st.fs.write file.name data, ops := st.ops ++ [.write file.name data] })
  | some k =>
    (some (.ioFailure file.name),
      { fs := st.fs.write file.name (data.take k),
        ops := st.ops ++ [.write file.name (data.take k)] })

/-- A deferred call of `CreateTorrentFile`. -/
inductive Deferred where
  | sync
  | close
  deriving DecidableEq, Repr

/-- Run the deferred calls at function exit. The list is the defer stack with the
most recently deferred call first, which is the order Go runs them in; their
results are dropped. -/
def runDeferred : List Deferred → File → State → State
  | [], _, st => st
  | .sync :: rest, file, st =>
    let r := file.Sync st
    runDeferred rest r.2.1 r.2.2
  | .close :: rest, file, st =>
    let r := file.Close st
    runDeferred rest r.2.1 r.2.2

/-- The `if mi == nil { ... } else { ... }` statement of `CreateTorrentFile`: the
envelope that is written, or the error of `bencode.Marshal`. -/
def envelope (cfg : Config) (env : Env) (info : Info) (mi : Option MetaInfo) :
    Except Error MetaInfo :=
  match mi with
  | none =>
    match cfg.marshalInfo info with
    | .error err => .error err
    | .ok infoBytes =>
      .ok { CreationDate := env.now, CreatedBy := "erigon", InfoBytes := infoBytes,
            AnnounceList := cfg.Trackers, Announce := "", Comment := "" }
  | some mi => .ok { mi with AnnounceList := cfg.Trackers }

/-- The function `CreateTorrentFile`. -/
def CreateTorrentFile (cfg : Config) (env : Env) (st : State) (root : Path) (info : Info)
    (mi : Option MetaInfo) : Option Error × State :=
  match envelope cfg env info mi with
  | .error err => (some err, st)
  | .ok mi =>
    let torrentFileName := root ++ [info.Name ++ ".torrent"]
    match osCreate env st torrentFileName with
    | .error err => (some err, st)
    | .ok (file, st1) =>
      let deferred := [Deferred.sync]
      let deferred := Deferred.close :: deferred
      let w := mi.Write cfg env file st1
      match w.1 with
      | some err => (some err, runDeferred deferred file w.2)
      | none => (none, runDeferred deferred file w.2)

/-- The function `CreateTorrentFileIfNotExists`. -/
def CreateTorrentFileIfNotExists (cfg : Config) (env : Env) (st : State) (root : Path)
    (info : Info) (mi : Option MetaInfo) : Option Error × State :=
  let torrentFileName := root ++ [info.Name ++ ".torrent"]
  match osStat env st.fs torrentFileName with
  | .error err =>
    if isNotExist err then CreateTorrentFile cfg env st root info mi
    else (some err, st)
  | .ok _ => (none, st)

/-- Modelled from the spec: `Info.BuildFromFilePath` of the metainfo library for a
regular file (§4.2 `build`, single-file case): the name is the base name of the
path, the length is the file size, and the pieces are generated from the
content. The build fails when the file cannot be read or the piece length is 0. -/
def Info.BuildFromFilePath (sha1 : Bytes → Digest) (fs : FS) (info : Info) (path : Path) :
    Except Error Info :=
  match path.getLast?, fs.read path with
  | some base, some content =>
    if info.PieceLength = 0 then .error .build
    else .ok { info with
      Name := base
      Length := content.length
      Files := []
      Pieces := generatePieces sha1 info.PieceLength content }
  | _, _ => .error (.notExist path)

/-- The function `BuildInfoBytesForFile`; `fileName` is given by its components. -/
def BuildInfoBytesForFile (sha1 : Bytes → Digest) (cfg : Config) (fs : FS) (root : Path)
    (fileName : Path) : Except Error Info :=
  let info : Info :=
    { PieceLength := cfg.DefaultPieceSize, Pieces := [], Name := "", Length := 0, Files := [] }
  match info.BuildFromFilePath sha1 fs (root ++ fileName) with
  | .error err => .error err
  | .ok info => .ok info

/-- The scan of `filepath.Ext` from the end of the name: `rev` is what is left,
reversed, and `acc` the characters passed so far. -/
def extScan : List Char → List Char → List Char
  | [], _ => []
  | c :: rev, acc =>
    if c = '/' then []
    else if c = '.' then '.' :: acc
    else extScan rev (c :: acc)

/-- The function `filepath.Ext`: the suffix of the last path element from its last
dot on, or the empty string. -/
def Ext (path : String) : String :=
  String.mk (extScan path.data.reverse [])

/-- The entries of `ioutil.ReadDir(dir)`: name and size of the files directly in
`dir`, sorted by name. -/
def readDir (fs : FS) (dir : Path) : List (String × Nat) :=
  (fs.filterMap (fun e =>
    match e.1.getLast? with
    | some name => if e.1.dropLast = dir then some (name, e.2.length) else none
    | none => none)).insertionSort (fun a b => a.1.data ≤ b.1.data)

/-- The function `allSegmentFiles`. -/
def allSegmentFiles (cfg : Config) (env : Env) (fs : FS) (dir : Path) :
    Except Error (List String) :=
  if env.readDirFails dir then .error (.ioFailure dir)
  else
    .ok (((readDir fs dir).filter (fun f =>
      cfg.IsCorrectFileName f.1 && !(f.2 == 0) && !(decide (Ext f.1 ≠ ".seg")))).map
        (fun f => f.1))

/-- The outcome of the `select` at the end of iteration `i` of
`BuildTorrentFilesIfNeed`: the error to return, if the `ctx.Done()` case is
taken. When the ticker case is taken the progress line is logged instead. -/
def selectDone (env : Env) (i : Nat) : Option Error :=
  if env.tickTaken i then none
  else if env.ctx.isDone i then some env.ctx.Err
  else none

/-- The `if _, err := os.Stat(torrentFileName); err != nil` statement of the loop
body of `BuildTorrentFilesIfNeed`. -/
def buildIfAbsent (sha1 : Bytes → Digest) (cfg : Config) (env : Env) (root : Path)
    (f : String) (st : State) : Option Error × State :=
  let torrentFileName := root ++ [f ++ ".torrent"]
  match osStat env st.fs torrentFileName with
  | .error err =>
    if !isNotExist err then (some err, st)
    else
      match BuildInfoBytesForFile sha1 cfg st.fs root [f] with
      | .error err => (some err, st)
      | .ok info =>
        let r := CreateTorrentFile cfg env st root info none
        match r.1 with
        | some err => (some err, r.2)
        | none => (none, r.2)
  | .ok _ => (none, st)

/-- The loop `for i, f := range files` of `BuildTorrentFilesIfNeed`. -/
def buildLoop (sha1 : Bytes → Digest) (cfg : Config) (env : Env) (root : Path) :
    List String → Nat → State → Option Error × State
  | [], _, st => (none, st)
  | f :: rest, i, st =>
    let r := buildIfAbsent sha1 cfg env root f st
    match r.1 with
    | some err => (some err, r.2)
    | none =>
      match selectDone env i with
      | some err => (some err, r.2)
      | none => buildLoop sha1 cfg env root rest (i + 1) r.2

/-- The function `BuildTorrentFilesIfNeed`. -/
def BuildTorrentFilesIfNeed (sha1 : Bytes → Digest) (cfg : Config) (env : Env) (st : State)
    (root : Path) : Option Error × State :=
  match allSegmentFiles cfg env st.fs root with
  | .error err => (some err, st)
  | .ok files => buildLoop sha1 cfg env root files 0 st

/-- A toy digest used to run the definitions on concrete inputs. -/
def toyHash (data : Bytes) : Digest :=
  [data.length, data.sum % 256]

/-- A content root with one descriptor directory `data` holding two files of 5 and
7 bytes. -/
def demoFS : FS :=
  [(["snapshots", "data", "a"], [1, 2, 3, 4, 5]),
   (["snapshots", "data", "b"], [6, 7, 8, 9, 10, 11, 12])]

/-- A descriptor over the two files of `demoFS` with piece length 8; the second
stored digest is wrong. -/
def demoInfo : Info :=
  { PieceLength := 8
    Pieces := [toyHash [1, 2, 3, 4, 5, 6, 7, 8], toyHash [0]]
    Name := "data"
    Length := 0
    Files := [{ Length := 5, Path := ["a"] }, { Length := 7, Path := ["b"] }] }

/-- The file system `demoFS` with file `a` removed and file `b` truncated. -/
def brokenFS : FS :=
  [(["snapshots", "data", "b"], [6, 7, 8])]

/-- A consumer that fails with `custom 7` at piece index 0 and counts its calls. -/
def failFirst : Consumer Nat :=
  fun s i _ => (if i = 0 then some (Error.custom 7) else none, s + 1)

/-- A configuration with toy encoders: piece size 4, two tiers. -/
def demoConfig : Config :=
  { Trackers := [["udp://t1"], ["https://t2"]]
    DefaultPieceSize := 4
    IsCorrectFileName := fun _ => true
    marshalInfo := fun info => .ok (info.PieceLength :: info.Length :: info.Pieces.flatten)
    encodeMetaInfo := fun mi =>
      mi.CreationDate.toNat :: mi.AnnounceList.length :: mi.InfoBytes }

/-- An environment without faults, ticks or cancellation. -/
def quietEnv : Env :=
  { now := 1650000000
    ctx := { firesAt := none }
    createFails := fun _ => false
    writeFault := fun _ => none
    statFails := fun _ => false
    readDirFails := fun _ => false
    tickTaken := fun _ => false }

/-- An environment in which every `mi.Write` fails before its first byte. -/
def diskFullEnv : Env :=
  { quietEnv with writeFault := fun _ => some 0 }

/-- A state whose only file is an old descriptor file `data.torrent`. -/
def oldTorrentState : State :=
  { fs := [(["snapshots", "data.torrent"], [9, 9, 9])], ops := [] }

/-- An envelope prepared by a caller, with tiers of its own. -/
def demoMetaInfo : MetaInfo :=
  { InfoBytes := [1, 2, 3], Announce := "", AnnounceList := [["udp://other"]],
    CreationDate := 5, Comment := "", CreatedBy := "someone" }

/-- A state with two segment files and no descriptor file yet. -/
def segState : State :=
  { fs := [(["snapshots", "b.seg"], [6, 7, 8]), (["snapshots", "a.seg"], [1, 2, 3, 4, 5])]
    ops := [] }

/-- An environment with a later clock and a context cancelled from the start. -/
def laterEnv : Env :=
  { quietEnv with now := 1660000000, ctx := { firesAt := some 0 } }

/-- A file system whose only file lies in a subdirectory of the root. -/
def nestedFS : FS :=
  [(["snapshots", "sub", "a.seg"], [1, 2, 3, 4, 5])]

/-- The file system `demoFS` with file `b` cut down to two bytes. -/
def truncatedFS : FS :=
  [(["snapshots", "data", "a"], [1, 2, 3, 4, 5]), (["snapshots", "data", "b"], [6, 7])]

/-- The descriptor that `BuildInfoBytesForFile` yields for `a.seg` of `segState`
under `demoConfig` and `toyHash`. -/
def builtInfo : Info :=
  { PieceLength := 4, Pieces := [[4, 10], [1, 5]], Name := "a.seg", Length := 5, Files := [] }

/-- No entries besides the regular files. -/
def noObstacles : Obstacles :=
  fun _ => none

/-- The entry `snapshots/data/a` is a directory of size 4096: it opens, but
mapping it fails. -/
def dirObstacles : Obstacles :=
  fun p => if p = ["snapshots", "data", "a"]
    then some (.mapFails 4096 (Error.ioFailure ["snapshots", "data", "a"])) else none

/-- A consumer that counts its calls and the good pieces, and never fails. -/
def countConsumer : Consumer (Nat × Nat) :=
  fun s _ good => (none, (s.1 + 1, if good then s.2 + 1 else s.2))

/-- An environment in which every `os.Create` fails. -/
def readOnlyEnv : Env :=
  { quietEnv with createFails := fun _ => true }

/-- A consumer that records nothing and never fails. -/
def okConsumer : Consumer Unit :=
  fun s _ _ => (none, s)

/-! ## Lemmas and theorems -/

open List

theorem ReadAt_eq (span : MMapSpan) (off n : Nat) :
    span.ReadAt off n = (span.flatten.drop off).take n := by
  induction span generalizing off n with
  | nil => simp [MMapSpan.ReadAt]
  | cons r rs ih =>
    unfold MMapSpan.ReadAt
    split
    · next h =>
      rw [ih, List.flatten_cons, List.drop_append_eq_append_drop]
      simp [List.drop_eq_nil_of_le h]
    · next h =>
      push_neg at h
      simp only [ih, List.flatten_cons, List.drop_zero]
      rw [List.drop_append_of_le_length (le_of_lt h), List.take_append_eq_append_take]
      congr 2
      simp only [List.length_take, List.length_drop]
      omega

theorem mmapFile_regular (fs : FS) (obs : Obstacles) (name : Path) (content : Bytes)
    (h : fs.read name = some content) : mmapFile fs obs name = .ok content := by
  unfold mmapFile osOpen
  simp only [h]
  by_cases hc : content.length = 0
  · have : content = [] := List.length_eq_zero.mp hc
    subst this
    simp
  · simp [hc]

theorem mmapFile_ok_facts (fs : FS) (obs : Obstacles) (name : Path) (mm : Bytes)
    (h : mmapFile fs obs name = .ok mm) :
    (fs.read name).getD [] = mm ∧ diskLength fs obs name = some mm.length := by
  unfold mmapFile osOpen at h
  unfold diskLength
  cases hr : fs.read name with
  | some content =>
    rw [hr] at h
    simp only at h
    by_cases hc : content.length = 0
    · have : content = [] := List.length_eq_zero.mp hc
      subst this
      simp only [List.length_nil, if_true, Except.ok.injEq] at h
      subst h
      simp
    · simp only [hc, if_false, Except.ok.injEq] at h
      subst h
      simp
  | none =>
    rw [hr] at h
    simp only at h
    cases ho : obs name with
    | none => simp [ho] at h
    | some o =>
      rw [ho] at h
      cases o with
      | openFails size err => simp at h
      | statFails size err => simp at h
      | mapFails size err =>
        simp only at h
        by_cases hz : size = 0
        · simp only [hz, if_true, Except.ok.injEq] at h
          subst h
          simp [Obstacle.size, hz]
        · simp [hz] at h

theorem filesMap_of_filesMatch (fs : FS) (obs : Obstacles) (root : Path) (name : String)
    (files : List FileInfo) (h : filesMatch fs root name files) :
    filesMap fs obs root name files := by
  intro file hf
  obtain ⟨content, hc, hl⟩ := h file hf
  exact ⟨content, mmapFile_regular fs obs _ content hc, hl⟩

theorem openSpan_ok_iff (fs : FS) (obs : Obstacles) (root : Path) (name : String)
    (files : List FileInfo) (span sp : MMapSpan) :
    openSpan fs obs root name files span = .ok sp ↔
      filesMap fs obs root name files ∧
      sp = span ++ files.map (fun file => (fs.read (root ++ [name] ++ file.Path)).getD []) := by
  induction files generalizing span with
  | nil => simp [openSpan, filesMap]; exact eq_comm
  | cons file rest ih =>
    unfold openSpan
    simp only
    cases hm : mmapFile fs obs (root ++ [name] ++ file.Path) with
    | error err =>
      simp only [false_iff, not_and, reduceCtorEq]
      intro hall
      obtain ⟨mm, hc, _⟩ := hall file (List.mem_cons_self _ _)
      rw [hm] at hc
      cases hc
    | ok mm =>
      have hget := (mmapFile_ok_facts fs obs _ mm hm).1
      by_cases hl : mm.length = file.Length
      · simp only [hl, ne_eq, not_true_eq_false, ite_false, ih, MMapSpan.Append]
        constructor
        · rintro ⟨hrest, rfl⟩
          refine ⟨?_, by rw [List.map_cons, hget]; simp⟩
          intro f hf
          rcases List.mem_cons.mp hf with rfl | hf
          · exact ⟨mm, hm, hl⟩
          · exact hrest f hf
        · rintro ⟨hall, rfl⟩
          exact ⟨fun f hf => hall f (List.mem_cons_of_mem _ hf),
            by rw [List.map_cons, hget]; simp⟩
      · simp only [ne_eq, hl, not_false_eq_true, ite_true, false_iff, not_and, reduceCtorEq]
        intro hall
        obtain ⟨mm1, hc, hlen⟩ := hall file (List.mem_cons_self _ _)
        rw [hm] at hc
        cases hc
        exact absurd hlen hl

theorem traceShape_index {i todo : Nat} {new : List Call} {err : Option Error}
    (h : traceShape i todo new err) : new.map Call.index = List.range' i new.length := by
  induction new generalizing i todo with
  | nil => simp
  | cons c rest ih =>
    obtain ⟨_, hi, hc⟩ := h
    cases hr : c.ret with
    | some e =>
      rw [hr] at hc
      obtain ⟨rfl, _⟩ := hc
      simp [hi, List.range']
    | none =>
      rw [hr] at hc
      simp [hi, List.range', ih hc]

theorem traceShape_nil_err {i todo : Nat} {new : List Call}
    (h : traceShape i todo new none) : new.length = todo ∧ ∀ c ∈ new, c.ret = none := by
  induction new generalizing i todo with
  | nil => exact ⟨h.1.symm, by simp⟩
  | cons c rest ih =>
    obtain ⟨hpos, _, hc⟩ := h
    cases hr : c.ret with
    | some e =>
      rw [hr] at hc
      exact absurd hc.2 (by simp)
    | none =>
      rw [hr] at hc
      obtain ⟨hl, hall⟩ := ih hc
      refine ⟨by simp [hl]; omega, ?_⟩
      intro d hd
      rcases List.mem_cons.mp hd with rfl | hd
      · exact hr
      · exact hall d hd

theorem traceShape_failed {i todo : Nat} {new : List Call} {err : Option Error}
    (h : traceShape i todo new err) {c : Call} (hc : c ∈ new) {e : Error}
    (he : c.ret = some e) : err = some e ∧ i + new.length = c.index + 1 := by
  induction new generalizing i todo with
  | nil => cases hc
  | cons d rest ih =>
    obtain ⟨_, hi, hd⟩ := h
    cases hr : d.ret with
    | some e1 =>
      rw [hr] at hd
      obtain ⟨rfl, herr⟩ := hd
      have : c = d := by simpa using hc
      subst this
      rw [hr] at he
      cases he
      exact ⟨herr, by simp [hi]⟩
    | none =>
      rw [hr] at hd
      rcases List.mem_cons.mp hc with rfl | hc1
      · rw [hr] at he
        cases he
      · obtain ⟨h1, h2⟩ := ih hd hc1
        exact ⟨h1, by simp only [List.length_cons]; omega⟩

theorem traceShape_all_none {i todo : Nat} {new : List Call} {err : Option Error}
    (h : traceShape i todo new err) (hall : ∀ c ∈ new, c.ret = none) :
    err = none ∧ new.length = todo := by
  induction new generalizing i todo with
  | nil => exact ⟨h.2, h.1.symm⟩
  | cons c rest ih =>
    obtain ⟨hpos, _, hc⟩ := h
    rw [hall c (List.mem_cons_self _ _)] at hc
    obtain ⟨h1, h2⟩ := ih hc (fun d hd => hall d (List.mem_cons_of_mem _ hd))
    exact ⟨h1, by simp only [List.length_cons]; omega⟩

theorem verifyLoop_trace {σ : Type} (sha1 : Bytes → Digest) (info : Info) (span : MMapSpan)
    (consumer : Consumer σ) (todo i : Nat) (s : σ) (calls : List Call) :
    ∃ new, (verifyLoop sha1 info span consumer todo i s calls).calls = calls ++ new ∧
      traceShape i todo new (verifyLoop sha1 info span consumer todo i s calls).err ∧
      (∀ c ∈ new, c.good = decide (sha1 (span.ReadAt (info.Piece c.index).Offset
        (info.Piece c.index).Length) = (info.Piece c.index).Hash)) ∧
      ∀ c ∈ new, ∃ t, c.ret = (consumer t c.index c.good).1 := by
  induction todo generalizing i s calls with
  | zero => exact ⟨[], by simp [verifyLoop, traceShape]⟩
  | succ todo ih =>
    unfold verifyLoop
    simp only [copySection]
    have hg : ∃ g, g = decide (sha1 (span.ReadAt (info.Piece i).Offset
        (info.Piece i).Length) = (info.Piece i).Hash) := ⟨_, rfl⟩
    obtain ⟨g, hg⟩ := hg
    rw [← hg]
    cases hr : (consumer s i g).1 with
    | some e =>
      simp only
      exact ⟨[{ index := i, good := g, ret := some e }], rfl, by simp [traceShape],
        by simp [hg], by simpa using ⟨s, hr.symm⟩⟩
    | none =>
      simp only
      obtain ⟨new, h1, h2, h3, h4⟩ := ih (i + 1) (consumer s i g).2
        (calls ++ [{ index := i, good := g, ret := none }])
      refine ⟨{ index := i, good := g, ret := none } :: new, ?_, ?_, ?_, ?_⟩
      · rw [h1]; simp
      · exact ⟨Nat.succ_pos _, rfl, by simpa using h2⟩
      · intro c hc
        rcases List.mem_cons.mp hc with rfl | hc
        · exact hg
        · exact h3 c hc
      · intro c hc
        rcases List.mem_cons.mp hc with rfl | hc
        · exact ⟨s, hr.symm⟩
        · exact h4 c hc

theorem openSpan_error (fs : FS) (obs : Obstacles) (root : Path) (name : String)
    (files : List FileInfo) (span : MMapSpan) (err : Error)
    (h : openSpan fs obs root name files span = .error err) :
    ∃ pre file post, files = pre ++ file :: post ∧ filesMap fs obs root name pre ∧
      (mmapFile fs obs (root ++ [name] ++ file.Path) = .error err ∨
        (∃ mm, mmapFile fs obs (root ++ [name] ++ file.Path) = .ok mm ∧
          mm.length ≠ file.Length ∧ err = .wrongLength (root ++ [name] ++ file.Path))) := by
  induction files generalizing span with
  | nil => simp [openSpan] at h
  | cons file rest ih =>
    unfold openSpan at h
    simp only at h
    cases hm : mmapFile fs obs (root ++ [name] ++ file.Path) with
    | error e =>
      rw [hm] at h
      simp only [Except.error.injEq] at h
      subst h
      exact ⟨[], file, rest, rfl, by simp [filesMap], Or.inl hm⟩
    | ok mm =>
      rw [hm] at h
      by_cases hl : mm.length = file.Length
      · simp only [hl, ne_eq, not_true_eq_false, ite_false] at h
        obtain ⟨pre, f, post, hfiles, hpre, hf⟩ := ih _ h
        refine ⟨file :: pre, f, post, by simp [hfiles], ?_, hf⟩
        intro g hg
        rcases List.mem_cons.mp hg with rfl | hg
        · exact ⟨mm, hm, hl⟩
        · exact hpre g hg
      · simp only [ne_eq, hl, not_false_eq_true, ite_true, Except.error.injEq] at h
        subst h
        exact ⟨[], file, rest, rfl, by simp [filesMap], Or.inr ⟨mm, hm, hl, rfl⟩⟩

theorem span_flatten_eq (fs : FS) (obs : Obstacles) (root : Path) (info : Info)
    (span : MMapSpan)
    (h : openSpan fs obs root info.Name info.UpvertedFiles [] = .ok span) :
    span.flatten = diskContent fs root info ∧
      (diskContent fs root info).length = info.TotalLength := by
  rw [openSpan_ok_iff] at h
  obtain ⟨hall, rfl⟩ := h
  refine ⟨by simp [diskContent], ?_⟩
  unfold diskContent Info.TotalLength
  generalize info.UpvertedFiles = files at hall
  induction files with
  | nil => simp
  | cons file rest ih =>
    obtain ⟨mm, hc, hl⟩ := hall file (List.mem_cons_self _ _)
    have := ih (fun f hf => hall f (List.mem_cons_of_mem _ hf))
    simp only [List.map_cons, List.flatten_cons, List.length_append, List.sum_cons, this,
      (mmapFile_ok_facts fs obs _ mm hc).1, hl]

theorem verifyLoop_all {σ : Type} (sha1 : Bytes → Digest) (info : Info) (span : MMapSpan)
    (consumer : Consumer σ)
    (hcons : ∀ (t : σ) (i : Nat) (good : Bool), (consumer t i good).1 = none)
    (todo i : Nat) (s : σ) (calls : List Call) :
    verifyLoop sha1 info span consumer todo i s calls =
      { err := none
        state := (List.range' i todo).foldl (fun t j => (consumer t j (decide (sha1
          (span.ReadAt (info.Piece j).Offset (info.Piece j).Length) = (info.Piece j).Hash))).2) s
        calls := calls ++ (List.range' i todo).map (fun j =>
          { index := j
            good := decide (sha1 (span.ReadAt (info.Piece j).Offset (info.Piece j).Length)
              = (info.Piece j).Hash)
            ret := none }) } := by
  induction todo generalizing i s calls with
  | zero => simp [verifyLoop]
  | succ todo ih =>
    unfold verifyLoop
    simp only [copySection, hcons]
    rw [ih]
    simp [List.range'_succ]

theorem spanGood_eq (sha1 : Bytes → Digest) (fs : FS) (obs : Obstacles) (root : Path)
    (info : Info) (span : MMapSpan)
    (h : openSpan fs obs root info.Name info.UpvertedFiles [] = .ok span) (j : Nat) :
    decide (sha1 (span.ReadAt (info.Piece j).Offset (info.Piece j).Length)
      = (info.Piece j).Hash) = pieceGood sha1 fs root info j := by
  rw [ReadAt_eq, (span_flatten_eq fs obs root info span h).1]
  rfl

/-- C1: when every file of the descriptor opens with its recorded length and the
consumer never returns an error, `verifyTorrent` returns nil and has applied
the consumer exactly once to each index `0, 1, ..., NumPieces-1`, in this
order and to no other index: the calls are those for `List.range NumPieces`,
each with the flag of its piece (false for a mismatch, which is no error), and
the consumer's final state is the result of exactly these applications. -/
theorem verifyTorrent_reports_every_piece {σ : Type} (sha1 : Bytes → Digest) (fs : FS)
    (obs : Obstacles) (info : Info) (root : Path) (consumer : Consumer σ) (s : σ)
    (hfiles : filesMatch fs root info.Name info.UpvertedFiles)
    (hcons : ∀ (t : σ) (i : Nat) (good : Bool), (consumer t i good).1 = none) :
    (verifyTorrent sha1 fs obs info root consumer s).err = none ∧
      (verifyTorrent sha1 fs obs info root consumer s).calls.map Call.index
        = List.range info.NumPieces ∧
      (verifyTorrent sha1 fs obs info root consumer s).calls
        = (List.range info.NumPieces).map (fun i =>
            { index := i, good := pieceGood sha1 fs root info i, ret := none }) ∧
      (verifyTorrent sha1 fs obs info root consumer s).state
        = (List.range info.NumPieces).foldl
            (fun t i => (consumer t i (pieceGood sha1 fs root info i)).2) s := by
  have hopen : openSpan fs obs root info.Name info.UpvertedFiles []
      = .ok (info.UpvertedFiles.map
          (fun file => (fs.read (root ++ [info.Name] ++ file.Path)).getD [])) :=
    (openSpan_ok_iff fs obs root info.Name info.UpvertedFiles [] _).mpr
      ⟨filesMap_of_filesMatch fs obs root info.Name _ hfiles, rfl⟩
  have hgood := spanGood_eq sha1 fs obs root info _ hopen
  have hres : verifyTorrent sha1 fs obs info root consumer s =
      { err := none
        state := (List.range info.NumPieces).foldl
          (fun t i => (consumer t i (pieceGood sha1 fs root info i)).2) s
        calls := (List.range info.NumPieces).map (fun i =>
          { index := i, good := pieceGood sha1 fs root info i, ret := none }) } := by
    unfold verifyTorrent
    rw [hopen]
    simp only
    rw [verifyLoop_all sha1 info _ consumer hcons]
    simp only [hgood, List.nil_append, ← List.range_eq_range']
  rw [hres]
  refine ⟨rfl, ?_, rfl, rfl⟩
  simp only [List.map_map]
  exact List.map_id _

theorem filesMatch_demo : filesMatch demoFS ["snapshots"] demoInfo.Name demoInfo.UpvertedFiles := by
  intro file hf
  simp only [demoInfo, Info.UpvertedFiles] at hf
  simp at hf
  rcases hf with rfl | rfl
  · exact ⟨[1, 2, 3, 4, 5], by decide, by decide⟩
  · exact ⟨[6, 7, 8, 9, 10, 11, 12], by decide, by decide⟩

/-- C1 witness: the two-file descriptor of `demoFS`, whose second digest is wrong,
is scanned to the end by a counting consumer: two calls, one good piece. -/
theorem verifyTorrent_reports_every_piece_witness :
    filesMatch demoFS ["snapshots"] demoInfo.Name demoInfo.UpvertedFiles ∧
    ((verifyTorrent toyHash demoFS noObstacles demoInfo ["snapshots"] countConsumer (0, 0)).err
        = none ∧
      (verifyTorrent toyHash demoFS noObstacles demoInfo ["snapshots"] countConsumer
        (0, 0)).calls.map Call.index = List.range demoInfo.NumPieces ∧
      (verifyTorrent toyHash demoFS noObstacles demoInfo ["snapshots"] countConsumer
        (0, 0)).calls
        = (List.range demoInfo.NumPieces).map (fun i =>
            { index := i, good := pieceGood toyHash demoFS ["snapshots"] demoInfo i,
              ret := none }) ∧
      (verifyTorrent toyHash demoFS noObstacles demoInfo ["snapshots"] countConsumer
        (0, 0)).state
        = (List.range demoInfo.NumPieces).foldl
            (fun t i => (countConsumer t i
              (pieceGood toyHash demoFS ["snapshots"] demoInfo i)).2) (0, 0)) ∧
    (verifyTorrent toyHash demoFS noObstacles demoInfo ["snapshots"] countConsumer
      (0, 0)).calls = [⟨0, true, none⟩, ⟨1, false, none⟩] ∧
    (verifyTorrent toyHash demoFS noObstacles demoInfo ["snapshots"] countConsumer
      (0, 0)).state = (2, 1) :=
  ⟨filesMatch_demo,
   verifyTorrent_reports_every_piece toyHash demoFS noObstacles demoInfo ["snapshots"]
     countConsumer (0, 0) filesMatch_demo (fun _ _ _ => rfl),
   by decide, by decide⟩

/-- C4: if some consumer call of the run returned an error `e`, then
`verifyTorrent` returns exactly `e`, and the calls made are exactly those for the
indices `0, ..., k` in order, where `k` is the index of the failing call; no
later index is visited. -/
theorem verifyTorrent_consumer_error {σ : Type} (sha1 : Bytes → Digest) (fs : FS)
    (obs : Obstacles) (info : Info) (root : Path) (consumer : Consumer σ) (s : σ) (c : Call)
    (e : Error)
    (hc : c ∈ (verifyTorrent sha1 fs obs info root consumer s).calls)
    (he : c.ret = some e) :
    (verifyTorrent sha1 fs obs info root consumer s).err = some e ∧
      (verifyTorrent sha1 fs obs info root consumer s).calls.map Call.index
        = List.range (c.index + 1) := by
  unfold verifyTorrent at hc ⊢
  cases hopen : openSpan fs obs root info.Name info.UpvertedFiles [] with
  | error err =>
    rw [hopen] at hc
    simp at hc
  | ok span =>
    rw [hopen] at hc
    simp only at hc ⊢
    obtain ⟨new, h1, h2, -, -⟩ := verifyLoop_trace sha1 info span consumer info.NumPieces 0 s []
    rw [h1, List.nil_append] at hc
    obtain ⟨herr, hlen⟩ := traceShape_failed h2 hc he
    refine ⟨herr, ?_⟩
    rw [h1, List.nil_append, traceShape_index h2, List.range_eq_range']
    congr 1
    omega

/-- C4 witness: a consumer failing at index 0 stops the scan of the two-piece
descriptor `demoInfo` there. -/
theorem verifyTorrent_consumer_error_witness :
    (⟨0, true, some (Error.custom 7)⟩ : Call)
        ∈ (verifyTorrent toyHash demoFS noObstacles demoInfo ["snapshots"] failFirst 0).calls ∧
      (verifyTorrent toyHash demoFS noObstacles demoInfo ["snapshots"] failFirst 0).err
        = some (Error.custom 7) ∧
      (verifyTorrent toyHash demoFS noObstacles demoInfo ["snapshots"] failFirst 0).calls.map Call.index
        = List.range (0 + 1) :=
  ⟨by decide, verifyTorrent_consumer_error toyHash demoFS noObstacles demoInfo ["snapshots"] failFirst 0
    ⟨0, true, some (Error.custom 7)⟩ (Error.custom 7) (by decide) rfl⟩

/-- C2: every reported flag is true exactly when the digest of the bytes
`[i*pieceLength, min(i*pieceLength+pieceLength, totalLength))` of the concatenated
on-disk files equals the stored digest at `i`. For files of 5 and 7 bytes and
piece length 8 the builder yields exactly two digests, and the verifier reads
piece 0 as file 1 followed by the first 3 bytes of file 2 and piece 1 as the
last 4 bytes of file 2. -/
theorem verifyTorrent_good_iff {σ : Type} (sha1 : Bytes → Digest) :
    (∀ (fs : FS) (obs : Obstacles) (info : Info) (root : Path) (consumer : Consumer σ) (s : σ)
      (c : Call),
      c ∈ (verifyTorrent sha1 fs obs info root consumer s).calls →
      (c.good = true ↔
        sha1 (slice (diskContent fs root info) (c.index * info.PieceLength)
          (min (c.index * info.PieceLength + info.PieceLength) info.TotalLength))
          = info.Pieces.getD c.index [])) ∧
    (∀ (f1 f2 : Bytes) (h0 h1 : Digest) (root : Path) (name : String) (obs : Obstacles),
      f1.length = 5 → f2.length = 7 →
      generatePieces sha1 8 (f1 ++ f2) = [sha1 (f1 ++ f2.take 3), sha1 (f2.drop 3)] ∧
      (verifyTorrent sha1 [(root ++ [name, "a"], f1), (root ++ [name, "b"], f2)] obs
          { PieceLength := 8, Pieces := [h0, h1], Name := name, Length := 0,
            Files := [{ Length := 5, Path := ["a"] }, { Length := 7, Path := ["b"] }] }
          root okConsumer ()).calls
        = [{ index := 0, good := decide (sha1 (f1 ++ f2.take 3) = h0), ret := none },
           { index := 1, good := decide (sha1 (f2.drop 3) = h1), ret := none }]) := by
  constructor
  · intro fs obs info root consumer s c hc
    unfold verifyTorrent at hc
    cases hopen : openSpan fs obs root info.Name info.UpvertedFiles [] with
    | error err =>
      rw [hopen] at hc
      simp at hc
    | ok span =>
      rw [hopen] at hc
      simp only at hc
      obtain ⟨new, h1, -, h3, -⟩ :=
        verifyLoop_trace sha1 info span consumer info.NumPieces 0 s []
      rw [h1, List.nil_append] at hc
      rw [h3 c hc, ReadAt_eq, (span_flatten_eq fs obs root info span hopen).1]
      simp [slice, Piece.Offset, Piece.Length, Piece.Hash, Info.Piece]
  · intro f1 f2 h0 h1 root name obs hl1 hl2
    obtain ⟨a1, a2, a3, a4, a5, rfl⟩ : ∃ a1 a2 a3 a4 a5, f1 = [a1, a2, a3, a4, a5] := by
      match f1, hl1 with
      | [a1, a2, a3, a4, a5], _ => exact ⟨a1, a2, a3, a4, a5, rfl⟩
    obtain ⟨b1, b2, b3, b4, b5, b6, b7, rfl⟩ :
        ∃ b1 b2 b3 b4 b5 b6 b7, f2 = [b1, b2, b3, b4, b5, b6, b7] := by
      match f2, hl2 with
      | [b1, b2, b3, b4, b5, b6, b7], _ => exact ⟨b1, b2, b3, b4, b5, b6, b7, rfl⟩
    constructor
    · simp [generatePieces, slice, List.range_succ]
    · simp [verifyTorrent, openSpan, mmapFile, osOpen, FS.read, Info.UpvertedFiles, MMapSpan.Append,
        verifyLoop, copySection, MMapSpan.ReadAt, Info.NumPieces, Info.Piece, Piece.Offset,
        Piece.Length, Piece.Hash, Info.TotalLength, okConsumer]

/-- C2 witness: on `demoFS` the first flag is true and the second false, and the
5/7/8 layout is read as stated. -/
theorem verifyTorrent_good_iff_witness :
    (⟨1, false, none⟩ : Call)
        ∈ (verifyTorrent toyHash demoFS noObstacles demoInfo ["snapshots"] okConsumer ()).calls ∧
      ((false = true) ↔
        toyHash (slice (diskContent demoFS ["snapshots"] demoInfo) (1 * demoInfo.PieceLength)
          (min (1 * demoInfo.PieceLength + demoInfo.PieceLength) demoInfo.TotalLength))
          = demoInfo.Pieces.getD 1 []) ∧
      generatePieces toyHash 8 ([1, 2, 3, 4, 5] ++ [6, 7, 8, 9, 10, 11, 12])
        = [toyHash ([1, 2, 3, 4, 5] ++ [6, 7, 8, 9, 10, 11, 12].take 3),
           toyHash ([6, 7, 8, 9, 10, 11, 12].drop 3)] :=
  ⟨by decide,
   (@verifyTorrent_good_iff Unit toyHash).1 demoFS noObstacles demoInfo ["snapshots"] okConsumer ()
     ⟨1, false, none⟩ (by decide),
   ((@verifyTorrent_good_iff Unit toyHash).2 [1, 2, 3, 4, 5] [6, 7, 8, 9, 10, 11, 12]
     [] [] ["snapshots"] "data" noObstacles rfl rfl).1⟩

/-- C3 as stated fails: in `brokenFS` file `b` is truncated, yet the error names
the missing file `a` that precedes it and is no wrong-length error. -/
theorem verifyTorrent_length_mismatch_counterexample :
    (∃ file ∈ demoInfo.UpvertedFiles, ∃ n,
        diskLength brokenFS noObstacles (["snapshots"] ++ [demoInfo.Name] ++ file.Path)
          = some n ∧ n ≠ file.Length) ∧
      (verifyTorrent toyHash brokenFS noObstacles demoInfo ["snapshots"] okConsumer ()).err
        = some (Error.notExist ["snapshots", "data", "a"]) ∧
      ¬ ∃ file ∈ demoInfo.UpvertedFiles,
        (verifyTorrent toyHash brokenFS noObstacles demoInfo ["snapshots"] okConsumer ()).err
          = some (Error.wrongLength (["snapshots"] ++ [demoInfo.Name] ++ file.Path)) := by
  refine ⟨⟨{ Length := 7, Path := ["b"] }, by decide, 3, by decide, by decide⟩,
    by decide, ?_⟩
  rintro ⟨file, -, h⟩
  have : (verifyTorrent toyHash brokenFS noObstacles demoInfo ["snapshots"] okConsumer ()).err
      = some (Error.notExist ["snapshots", "data", "a"]) := by decide
  rw [this] at h
  cases h

/-- C3, amended: if some file of the descriptor has an on-disk length different
from the recorded one, `verifyTorrent` makes no consumer call and returns an
error about the first file, in descriptor order, that `mmapFile` does not map
with its recorded length: the error `mmapFile` returns for that file (from
`os.Open`, `f.Stat` or `mmap.MapRegion`) if there is one, the wrong-length
error naming that file's path otherwise. -/
theorem verifyTorrent_length_mismatch {σ : Type} (sha1 : Bytes → Digest) (fs : FS)
    (obs : Obstacles) (info : Info) (root : Path) (consumer : Consumer σ) (s : σ)
    (hbad : ∃ file ∈ info.UpvertedFiles, ∃ n,
      diskLength fs obs (root ++ [info.Name] ++ file.Path) = some n ∧ n ≠ file.Length) :
    (verifyTorrent sha1 fs obs info root consumer s).calls = [] ∧
    (verifyTorrent sha1 fs obs info root consumer s).state = s ∧
    ∃ pre file post, info.UpvertedFiles = pre ++ file :: post ∧
      filesMap fs obs root info.Name pre ∧
      ((∃ err, mmapFile fs obs (root ++ [info.Name] ++ file.Path) = .error err ∧
          (verifyTorrent sha1 fs obs info root consumer s).err = some err) ∨
        (∃ mm, mmapFile fs obs (root ++ [info.Name] ++ file.Path) = .ok mm ∧
          mm.length ≠ file.Length ∧
          (verifyTorrent sha1 fs obs info root consumer s).err
            = some (.wrongLength (root ++ [info.Name] ++ file.Path)))) := by
  unfold verifyTorrent
  cases hopen : openSpan fs obs root info.Name info.UpvertedFiles [] with
  | ok span =>
    exfalso
    rw [openSpan_ok_iff] at hopen
    obtain ⟨file, hf, n, hn, hl⟩ := hbad
    obtain ⟨mm, hm, hlen⟩ := hopen.1 file hf
    rw [(mmapFile_ok_facts fs obs _ mm hm).2] at hn
    cases hn
    exact hl hlen
  | error err =>
    simp only [true_and]
    obtain ⟨pre, file, post, h1, h2, h3⟩ := openSpan_error fs obs root info.Name _ _ _ hopen
    refine ⟨pre, file, post, h1, h2, ?_⟩
    rcases h3 with hr | ⟨mm, hr, hl, rfl⟩
    · exact Or.inl ⟨err, hr, rfl⟩
    · exact Or.inr ⟨mm, hr, hl, rfl⟩

/-- C3 witness: with only file `b` truncated the error is the wrong-length error
about `b`; with `a` a directory the error is the one of `mmap.MapRegion`. In
both runs no call is made. -/
theorem verifyTorrent_length_mismatch_witness :
    ((verifyTorrent toyHash truncatedFS noObstacles demoInfo ["snapshots"] countConsumer
        (0, 0)).err = some (Error.wrongLength ["snapshots", "data", "b"]) ∧
      (verifyTorrent toyHash truncatedFS noObstacles demoInfo ["snapshots"] countConsumer
        (0, 0)).calls = [] ∧
      (verifyTorrent toyHash truncatedFS noObstacles demoInfo ["snapshots"] countConsumer
        (0, 0)).state = (0, 0)) ∧
    ((verifyTorrent toyHash brokenFS dirObstacles demoInfo ["snapshots"] countConsumer
        (0, 0)).err = some (Error.ioFailure ["snapshots", "data", "a"]) ∧
      (verifyTorrent toyHash brokenFS dirObstacles demoInfo ["snapshots"] countConsumer
        (0, 0)).calls = [] ∧
      (verifyTorrent toyHash brokenFS dirObstacles demoInfo ["snapshots"] countConsumer
        (0, 0)).state = (0, 0)) := by
  have h1 := verifyTorrent_length_mismatch toyHash truncatedFS noObstacles demoInfo
    ["snapshots"] countConsumer (0, 0)
    ⟨{ Length := 7, Path := ["b"] }, by decide, 2, by decide, by decide⟩
  have h2 := verifyTorrent_length_mismatch toyHash brokenFS dirObstacles demoInfo
    ["snapshots"] countConsumer (0, 0)
    ⟨{ Length := 5, Path := ["a"] }, by decide, 4096, by decide, by decide⟩
  exact ⟨⟨by decide, h1.1, h1.2.1⟩, ⟨by decide, h2.1, h2.2.1⟩⟩

theorem read_write_same (fs : FS) (name : Path) (data : Bytes) :
    (fs.write name data).read name = some data := by
  simp [FS.write, FS.read]

theorem read_filter_ne (fs : FS) (name q : Path) (h : q ≠ name) :
    FS.read (fs.filter (fun e => decide (e.1 ≠ name))) q = fs.read q := by
  induction fs with
  | nil => rfl
  | cons e rest ih =>
    obtain ⟨p, b⟩ := e
    by_cases hp : p = name
    · have hne : ¬ p = q := fun h1 => h (h1.symm.trans hp)
      rw [List.filter_cons_of_neg (by simpa using hp), ih]
      simp [FS.read, hne]
    · rw [List.filter_cons_of_pos (by simpa using hp)]
      by_cases hq : p = q
      · simp [FS.read, hq]
      · simp only [FS.read, hq, if_false]
        exact ih

theorem read_write_other (fs : FS) (name q : Path) (data : Bytes) (h : q ≠ name) :
    (fs.write name data).read q = fs.read q := by
  have hne : ¬ name = q := fun h1 => h h1.symm
  simp only [FS.write, FS.read, hne, if_false]
  exact read_filter_ne fs name q h

theorem CreateTorrentFile_envelope_error (cfg : Config) (env : Env) (st : State)
    (root : Path) (info : Info) (mi : Option MetaInfo) (err : Error)
    (h : envelope cfg env info mi = .error err) :
    CreateTorrentFile cfg env st root info mi = (some err, st) := by
  simp [CreateTorrentFile, h]

theorem CreateTorrentFile_create_fails (cfg : Config) (env : Env) (st : State)
    (root : Path) (info : Info) (mi : Option MetaInfo) (m : MetaInfo)
    (h : envelope cfg env info mi = .ok m)
    (hc : env.createFails (root ++ [info.Name ++ ".torrent"]) = true) :
    CreateTorrentFile cfg env st root info mi
      = (some (.ioFailure (root ++ [info.Name ++ ".torrent"])), st) := by
  simp [CreateTorrentFile, h, osCreate, hc]

theorem CreateTorrentFile_written (cfg : Config) (env : Env) (st : State)
    (root : Path) (info : Info) (mi : Option MetaInfo) (m : MetaInfo)
    (h : envelope cfg env info mi = .ok m)
    (hc : env.createFails (root ++ [info.Name ++ ".torrent"]) = false)
    (hw : env.writeFault (root ++ [info.Name ++ ".torrent"]) = none) :
    CreateTorrentFile cfg env st root info mi
      = (none,
          { fs := (st.fs.write (root ++ [info.Name ++ ".torrent"]) []).write
              (root ++ [info.Name ++ ".torrent"]) (cfg.encodeMetaInfo m)
            ops := st.ops ++
              [FileOp.create (root ++ [info.Name ++ ".torrent"]),
               FileOp.write (root ++ [info.Name ++ ".torrent"]) (cfg.encodeMetaInfo m),
               FileOp.close (root ++ [info.Name ++ ".torrent"]),
               FileOp.sync (root ++ [info.Name ++ ".torrent"]) false] }) := by
  simp [CreateTorrentFile, h, osCreate, hc, MetaInfo.Write, hw, runDeferred, File.Close,
    File.Sync]

theorem CreateTorrentFile_write_fault (cfg : Config) (env : Env) (st : State)
    (root : Path) (info : Info) (mi : Option MetaInfo) (m : MetaInfo) (k : Nat)
    (h : envelope cfg env info mi = .ok m)
    (hc : env.createFails (root ++ [info.Name ++ ".torrent"]) = false)
    (hw : env.writeFault (root ++ [info.Name ++ ".torrent"]) = some k) :
    CreateTorrentFile cfg env st root info mi
      = (some (.ioFailure (root ++ [info.Name ++ ".torrent"])),
          { fs := (st.fs.write (root ++ [info.Name ++ ".torrent"]) []).write
              (root ++ [info.Name ++ ".torrent"]) ((cfg.encodeMetaInfo m).take k)
            ops := st.ops ++
              [FileOp.create (root ++ [info.Name ++ ".torrent"]),
               FileOp.write (root ++ [info.Name ++ ".torrent"]) ((cfg.encodeMetaInfo m).take k),
               FileOp.close (root ++ [info.Name ++ ".torrent"]),
               FileOp.sync (root ++ [info.Name ++ ".torrent"]) false] }) := by
  simp [CreateTorrentFile, h, osCreate, hc, MetaInfo.Write, hw, runDeferred, File.Close,
    File.Sync]

/-- C9 on the code: whenever `CreateTorrentFile` creates the target file, the
calls on the handle are create, write, `Close`, and only then `Sync`, which
finds the handle closed; no fsync takes place. Otherwise no call is made. -/
theorem CreateTorrentFile_closes_before_sync (cfg : Config) (env : Env) (st : State)
    (root : Path) (info : Info) (mi : Option MetaInfo) :
    (CreateTorrentFile cfg env st root info mi).2 = st ∨
    ∃ data, (CreateTorrentFile cfg env st root info mi).2.ops = st.ops ++
      [FileOp.create (root ++ [info.Name ++ ".torrent"]),
       FileOp.write (root ++ [info.Name ++ ".torrent"]) data,
       FileOp.close (root ++ [info.Name ++ ".torrent"]),
       FileOp.sync (root ++ [info.Name ++ ".torrent"]) false] := by
  cases h : envelope cfg env info mi with
  | error err => exact Or.inl (by rw [CreateTorrentFile_envelope_error _ _ _ _ _ _ _ h])
  | ok m =>
    cases hc : env.createFails (root ++ [info.Name ++ ".torrent"]) with
    | true => exact Or.inl (by rw [CreateTorrentFile_create_fails _ _ _ _ _ _ _ h hc])
    | false =>
      right
      cases hw : env.writeFault (root ++ [info.Name ++ ".torrent"]) with
      | none => exact ⟨_, by rw [CreateTorrentFile_written _ _ _ _ _ _ _ h hc hw]⟩
      | some k => exact ⟨_, by rw [CreateTorrentFile_write_fault _ _ _ _ _ _ _ _ h hc hw]⟩

/-- C8 as stated fails: when the write fails, `CreateTorrentFile` returns an error
and the old descriptor file has been emptied. -/
theorem CreateTorrentFile_atomic_counterexample :
    (CreateTorrentFile demoConfig diskFullEnv oldTorrentState ["snapshots"] demoInfo none).1
        = some (Error.ioFailure ["snapshots", "data.torrent"]) ∧
      oldTorrentState.fs.read (["snapshots"] ++ [demoInfo.Name ++ ".torrent"])
        = some [9, 9, 9] ∧
      (CreateTorrentFile demoConfig diskFullEnv oldTorrentState ["snapshots"] demoInfo none).2.fs.read
        (["snapshots"] ++ [demoInfo.Name ++ ".torrent"]) = some [] := by
  decide

/-- C8, amended: a `CreateTorrentFile` that fails before the target is created
leaves everything as it was: when `bencode.Marshal` fails its error is
returned and the state is unchanged, and when `os.Create` fails its error is
returned and the state is unchanged. When `mi.Write` fails after `k` bytes,
the error is returned, the target holds exactly the first `k` bytes of the
encoding (its previous content is gone), and every other file is as before.
An error is returned in these three cases only. -/
theorem CreateTorrentFile_error_effect (cfg : Config) (env : Env) (st : State)
    (root : Path) (info : Info) (mi : Option MetaInfo) :
    (∀ err, envelope cfg env info mi = .error err →
      CreateTorrentFile cfg env st root info mi = (some err, st)) ∧
    (∀ m, envelope cfg env info mi = .ok m →
      env.createFails (root ++ [info.Name ++ ".torrent"]) = true →
      CreateTorrentFile cfg env st root info mi
        = (some (.ioFailure (root ++ [info.Name ++ ".torrent"])), st)) ∧
    (∀ m k, envelope cfg env info mi = .ok m →
      env.createFails (root ++ [info.Name ++ ".torrent"]) = false →
      env.writeFault (root ++ [info.Name ++ ".torrent"]) = some k →
      (CreateTorrentFile cfg env st root info mi).1
          = some (.ioFailure (root ++ [info.Name ++ ".torrent"])) ∧
        (CreateTorrentFile cfg env st root info mi).2.fs.read
            (root ++ [info.Name ++ ".torrent"])
          = some ((cfg.encodeMetaInfo m).take k) ∧
        ∀ q, q ≠ root ++ [info.Name ++ ".torrent"] →
          (CreateTorrentFile cfg env st root info mi).2.fs.read q = st.fs.read q) ∧
    (∀ e, (CreateTorrentFile cfg env st root info mi).1 = some e →
      envelope cfg env info mi = .error e ∨
      (∃ m, envelope cfg env info mi = .ok m ∧
        e = .ioFailure (root ++ [info.Name ++ ".torrent"]) ∧
        (env.createFails (root ++ [info.Name ++ ".torrent"]) = true ∨
          (env.createFails (root ++ [info.Name ++ ".torrent"]) = false ∧
            ∃ k, env.writeFault (root ++ [info.Name ++ ".torrent"]) = some k)))) := by
  refine ⟨fun err h => CreateTorrentFile_envelope_error _ _ _ _ _ _ _ h,
    fun m h hc => CreateTorrentFile_create_fails _ _ _ _ _ _ _ h hc, ?_, ?_⟩
  · intro m k h hc hw
    rw [CreateTorrentFile_write_fault _ _ _ _ _ _ _ _ h hc hw]
    refine ⟨rfl, read_write_same _ _ _, ?_⟩
    intro q hq
    simp only
    rw [read_write_other _ _ _ _ hq, read_write_other _ _ _ _ hq]
  · intro e h
    cases henv : envelope cfg env info mi with
    | error err =>
      rw [CreateTorrentFile_envelope_error _ _ _ _ _ _ _ henv] at h
      cases h
      exact Or.inl rfl
    | ok m =>
      right
      cases hc : env.createFails (root ++ [info.Name ++ ".torrent"]) with
      | true =>
        rw [CreateTorrentFile_create_fails _ _ _ _ _ _ _ henv hc] at h
        cases h
        exact ⟨m, rfl, rfl, Or.inl rfl⟩
      | false =>
        cases hw : env.writeFault (root ++ [info.Name ++ ".torrent"]) with
        | none =>
          rw [CreateTorrentFile_written _ _ _ _ _ _ _ henv hc hw] at h
          cases h
        | some k =>
          rw [CreateTorrentFile_write_fault _ _ _ _ _ _ _ _ henv hc hw] at h
          cases h
          exact ⟨m, rfl, rfl, Or.inr ⟨rfl, k, rfl⟩⟩

/-- C8 witness: a failing `os.Create` leaves the old descriptor file and the whole
state alone; a write that fails at once leaves the target empty. -/
theorem CreateTorrentFile_error_effect_witness :
    CreateTorrentFile demoConfig readOnlyEnv oldTorrentState ["snapshots"] demoInfo none
        = (some (Error.ioFailure ["snapshots", "data.torrent"]), oldTorrentState) ∧
    oldTorrentState.fs.read ["snapshots", "data.torrent"] = some [9, 9, 9] ∧
    (CreateTorrentFile demoConfig diskFullEnv oldTorrentState ["snapshots"] demoInfo none).1
        = some (Error.ioFailure ["snapshots", "data.torrent"]) ∧
    (CreateTorrentFile demoConfig diskFullEnv oldTorrentState ["snapshots"] demoInfo none).2.fs.read
        ["snapshots", "data.torrent"] = some [] :=
  ⟨(CreateTorrentFile_error_effect demoConfig readOnlyEnv oldTorrentState ["snapshots"]
      demoInfo none).2.1 _ rfl rfl,
   by decide,
   ((CreateTorrentFile_error_effect demoConfig diskFullEnv oldTorrentState ["snapshots"]
      demoInfo none).2.2.1 _ 0 rfl rfl rfl).1,
   ((CreateTorrentFile_error_effect demoConfig diskFullEnv oldTorrentState ["snapshots"]
      demoInfo none).2.2.1 _ 0 rfl rfl rfl).2.1⟩

/-- C10: with an envelope `mi` supplied, the envelope handed to the encoder is `mi`
with its tier list replaced by `Trackers` and every other field as it was;
the tiers `mi` held before do not matter, and of `info` only the name, which
picks the target path, matters. On success the target holds exactly the
encoding of that envelope. -/
theorem CreateTorrentFile_given_envelope (cfg : Config) (env : Env) (st : State)
    (root : Path) (info : Info) (mi : MetaInfo) :
    envelope cfg env info (some mi)
        = .ok { InfoBytes := mi.InfoBytes, Announce := mi.Announce,
                AnnounceList := cfg.Trackers, CreationDate := mi.CreationDate,
                Comment := mi.Comment, CreatedBy := mi.CreatedBy } ∧
    (∀ tiers, CreateTorrentFile cfg env st root info (some { mi with AnnounceList := tiers })
        = CreateTorrentFile cfg env st root info (some mi)) ∧
    (∀ other : Info, other.Name = info.Name →
        CreateTorrentFile cfg env st root other (some mi)
          = CreateTorrentFile cfg env st root info (some mi)) ∧
    ((CreateTorrentFile cfg env st root info (some mi)).1 = none →
        (CreateTorrentFile cfg env st root info (some mi)).2.fs.read
            (root ++ [info.Name ++ ".torrent"])
          = some (cfg.encodeMetaInfo { mi with AnnounceList := cfg.Trackers })) := by
  refine ⟨rfl, fun tiers => rfl, ?_, ?_⟩
  · intro other hname
    simp [CreateTorrentFile, envelope, hname]
  · intro hok
    have henv : envelope cfg env info (some mi) = .ok { mi with AnnounceList := cfg.Trackers } :=
      rfl
    cases hc : env.createFails (root ++ [info.Name ++ ".torrent"]) with
    | true =>
      rw [CreateTorrentFile_create_fails _ _ _ _ _ _ _ henv hc] at hok
      cases hok
    | false =>
      cases hw : env.writeFault (root ++ [info.Name ++ ".torrent"]) with
      | none =>
        rw [CreateTorrentFile_written _ _ _ _ _ _ _ henv hc hw]
        exact read_write_same _ _ _
      | some k =>
        rw [CreateTorrentFile_write_fault _ _ _ _ _ _ _ _ henv hc hw] at hok
        cases hok

/-- C10 witness: the caller's tier `udp://other` is replaced; the file holds the
encoding of the envelope with the two configured tiers. -/
theorem CreateTorrentFile_given_envelope_witness :
    (CreateTorrentFile demoConfig quietEnv oldTorrentState ["snapshots"] demoInfo
        (some demoMetaInfo)).1 = none ∧
    (CreateTorrentFile demoConfig quietEnv oldTorrentState ["snapshots"] demoInfo
        (some demoMetaInfo)).2.fs.read (["snapshots"] ++ [demoInfo.Name ++ ".torrent"])
      = some (demoConfig.encodeMetaInfo
          { demoMetaInfo with AnnounceList := demoConfig.Trackers }) :=
  ⟨by decide,
   (CreateTorrentFile_given_envelope demoConfig quietEnv oldTorrentState ["snapshots"] demoInfo
      demoMetaInfo).2.2.2 (by decide)⟩

theorem torrent_data : (".torrent" : String).data = ['.', 't', 'o', 'r', 'r', 'e', 'n', 't'] := by
  decide

theorem Ext_torrent (f : String) : Ext (f ++ ".torrent") = ".torrent" := by
  unfold Ext
  rw [String.data_append, List.reverse_append, torrent_data]
  simp [extScan]

theorem Ext_torrent_ne_seg (f : String) : Ext (f ++ ".torrent") ≠ ".seg" := by
  rw [Ext_torrent]
  decide

theorem mem_write (fs : FS) (name : Path) (data : Bytes) (e : Path × Bytes) :
    e ∈ fs.write name data ↔ e = (name, data) ∨ (e ∈ fs ∧ e.1 ≠ name) := by
  simp [FS.write, List.mem_filter]

theorem mem_readDir (fs : FS) (dir : Path) (name : String) (size : Nat) :
    (name, size) ∈ readDir fs dir ↔ ∃ e ∈ fs, e.1 = dir ++ [name] ∧ size = e.2.length := by
  unfold readDir
  rw [(List.perm_insertionSort _ _).mem_iff, List.mem_filterMap]
  constructor
  · rintro ⟨e, he, h⟩
    refine ⟨e, he, ?_⟩
    cases hl : e.1.getLast? with
    | none => simp [hl] at h
    | some last =>
      simp only [hl] at h
      by_cases hd : e.1.dropLast = dir
      · simp only [hd, if_true, Option.some.injEq, Prod.mk.injEq] at h
        obtain ⟨rfl, rfl⟩ := h
        exact ⟨by rw [← hd]; exact (List.dropLast_append_getLast? _ hl).symm, rfl⟩
      · simp [hd] at h
  · rintro ⟨e, he, h1, h2⟩
    refine ⟨e, he, ?_⟩
    simp [h1, h2]


theorem mem_allSegmentFiles (cfg : Config) (env : Env) (fs : FS) (dir : Path)
    (files : List String) (h : allSegmentFiles cfg env fs dir = .ok files) (f : String) :
    f ∈ files ↔ ∃ e ∈ fs, e.1 = dir ++ [f] ∧ e.2.length ≠ 0 ∧
      cfg.IsCorrectFileName f = true ∧ Ext f = ".seg" := by
  unfold allSegmentFiles at h
  by_cases hr : env.readDirFails dir = true
  · simp [hr] at h
  · simp only [hr, Bool.false_eq_true, if_false, Except.ok.injEq] at h
    subst h
    simp only [List.mem_map, List.mem_filter]
    constructor
    · rintro ⟨⟨name, size⟩, ⟨hmem, hcond⟩, rfl⟩
      obtain ⟨e, he, h1, h2⟩ := (mem_readDir fs dir name size).mp hmem
      simp only [Bool.and_eq_true, Bool.not_eq_true', beq_eq_false_iff_ne, ne_eq,
        decide_eq_false_iff_not, not_not] at hcond
      exact ⟨e, he, h1, by rw [← h2]; exact hcond.1.2, hcond.1.1, hcond.2⟩
    · rintro ⟨e, he, h1, h2, h3, h4⟩
      refine ⟨(f, e.2.length), ⟨(mem_readDir fs dir f _).mpr ⟨e, he, h1, rfl⟩, ?_⟩, rfl⟩
      simp [h2, h3, h4]

theorem BuildInfoBytesForFile_single (sha1 : Bytes → Digest) (cfg : Config) (fs : FS)
    (root : Path) (f : String) (info : Info)
    (h : BuildInfoBytesForFile sha1 cfg fs root [f] = .ok info) :
    ∃ content, fs.read (root ++ [f]) = some content ∧ cfg.DefaultPieceSize ≠ 0 ∧
      info = { PieceLength := cfg.DefaultPieceSize
               Pieces := generatePieces sha1 cfg.DefaultPieceSize content
               Name := f
               Length := content.length
               Files := [] } := by
  unfold BuildInfoBytesForFile Info.BuildFromFilePath at h
  simp only [List.getLast?_append, List.getLast?_singleton, Option.or_some] at h
  cases hr : fs.read (root ++ [f]) with
  | none => simp [hr] at h
  | some content =>
    simp only [hr] at h
    by_cases hz : cfg.DefaultPieceSize = 0
    · simp [hz] at h
    · simp only [hz, if_false, Except.ok.injEq] at h
      exact ⟨content, rfl, hz, h.symm⟩

theorem CreateTorrentFile_ok (cfg : Config) (env : Env) (st : State)
    (root : Path) (info : Info) (mi : Option MetaInfo)
    (h : (CreateTorrentFile cfg env st root info mi).1 = none) :
    ∃ m, envelope cfg env info mi = .ok m ∧
      (CreateTorrentFile cfg env st root info mi).2.fs
        = (st.fs.write (root ++ [info.Name ++ ".torrent"]) []).write
            (root ++ [info.Name ++ ".torrent"]) (cfg.encodeMetaInfo m) := by
  cases henv : envelope cfg env info mi with
  | error err =>
    rw [CreateTorrentFile_envelope_error _ _ _ _ _ _ _ henv] at h
    cases h
  | ok m =>
    cases hc : env.createFails (root ++ [info.Name ++ ".torrent"]) with
    | true =>
      rw [CreateTorrentFile_create_fails _ _ _ _ _ _ _ henv hc] at h
      cases h
    | false =>
      cases hw : env.writeFault (root ++ [info.Name ++ ".torrent"]) with
      | none =>
        rw [CreateTorrentFile_written _ _ _ _ _ _ _ henv hc hw]
        exact ⟨m, rfl, rfl⟩
      | some k =>
        rw [CreateTorrentFile_write_fault _ _ _ _ _ _ _ _ henv hc hw] at h
        cases h

/-- What a successful creation step guarantees about the file system. -/
theorem written_fs_facts (fs : FS) (p : Path) (data : Bytes) :
    (((fs.write p []).write p data).read p).isSome = true ∧
    (∀ e ∈ (fs.write p []).write p data, e ∈ fs ∨ e.1 = p) ∧
    (∀ q, (fs.read q).isSome = true → (((fs.write p []).write p data).read q).isSome = true) := by
  refine ⟨by rw [read_write_same]; rfl, ?_, ?_⟩
  · intro e he
    rcases (mem_write _ _ _ _).mp he with rfl | ⟨he1, _⟩
    · exact Or.inr rfl
    · rcases (mem_write _ _ _ _).mp he1 with rfl | ⟨he2, _⟩
      · exact Or.inr rfl
      · exact Or.inl he2
  · intro q hq
    by_cases hqp : q = p
    · subst hqp
      rw [read_write_same]; rfl
    · rw [read_write_other _ _ _ _ hqp, read_write_other _ _ _ _ hqp]
      exact hq

theorem buildIfAbsent_present (sha1 : Bytes → Digest) (cfg : Config) (env : Env)
    (root : Path) (f : String) (st : State)
    (h : (st.fs.read (root ++ [f ++ ".torrent"])).isSome = true) :
    (buildIfAbsent sha1 cfg env root f st).2 = st := by
  unfold buildIfAbsent osStat
  by_cases hs : env.statFails (root ++ [f ++ ".torrent"]) = true
  · simp [hs, isNotExist]
  · obtain ⟨b, hb⟩ := Option.isSome_iff_exists.mp h
    simp [hs, hb]

theorem buildIfAbsent_ok (sha1 : Bytes → Digest) (cfg : Config) (env : Env)
    (root : Path) (f : String) (st : State)
    (h : (buildIfAbsent sha1 cfg env root f st).1 = none) :
    ((buildIfAbsent sha1 cfg env root f st).2.fs.read (root ++ [f ++ ".torrent"])).isSome = true ∧
    (∀ e ∈ (buildIfAbsent sha1 cfg env root f st).2.fs,
      e ∈ st.fs ∨ e.1 = root ++ [f ++ ".torrent"]) ∧
    (∀ q, (st.fs.read q).isSome = true →
      ((buildIfAbsent sha1 cfg env root f st).2.fs.read q).isSome = true) := by
  cases hr : st.fs.read (root ++ [f ++ ".torrent"]) with
  | some b =>
    have hp : (st.fs.read (root ++ [f ++ ".torrent"])).isSome = true := by rw [hr]; rfl
    rw [buildIfAbsent_present sha1 cfg env root f st hp]
    exact ⟨hp, fun e he => Or.inl he, fun q hq => hq⟩
  | none =>
    unfold buildIfAbsent osStat at h ⊢
    by_cases hs : env.statFails (root ++ [f ++ ".torrent"]) = true
    · simp [hs, isNotExist] at h
    · simp only [hs, Bool.false_eq_true, if_false, hr, isNotExist, Bool.not_true] at h ⊢
      cases hb : BuildInfoBytesForFile sha1 cfg st.fs root [f] with
      | error err => simp [hb] at h
      | ok info =>
        simp only [hb] at h ⊢
        obtain ⟨content, -, -, hinfo⟩ := BuildInfoBytesForFile_single sha1 cfg st.fs root f info hb
        have hname : info.Name = f := by rw [hinfo]
        cases hc : (CreateTorrentFile cfg env st root info none).1 with
        | some err => simp [hc] at h
        | none =>
          simp only [hc]
          obtain ⟨m, -, hfs⟩ := CreateTorrentFile_ok cfg env st root info none hc
          rw [hfs, hname]
          exact written_fs_facts _ _ _

theorem buildLoop_present (sha1 : Bytes → Digest) (cfg : Config) (env : Env)
    (root : Path) (files : List String) (i : Nat) (st : State)
    (h : ∀ f ∈ files, (st.fs.read (root ++ [f ++ ".torrent"])).isSome = true) :
    (buildLoop sha1 cfg env root files i st).2 = st := by
  induction files generalizing i with
  | nil => rfl
  | cons f rest ih =>
    unfold buildLoop
    have hst := buildIfAbsent_present sha1 cfg env root f st (h f (List.mem_cons_self _ _))
    simp only
    cases hr : (buildIfAbsent sha1 cfg env root f st).1 with
    | some err => exact hst
    | none =>
      simp only
      cases selectDone env i with
      | some err => exact hst
      | none =>
        simp only
        rw [hst]
        exact ih (i + 1) (fun g hg => h g (List.mem_cons_of_mem _ hg))

theorem buildLoop_ok (sha1 : Bytes → Digest) (cfg : Config) (env : Env)
    (root : Path) (files : List String) (i : Nat) (st : State)
    (h : (buildLoop sha1 cfg env root files i st).1 = none) :
    (∀ f ∈ files,
      ((buildLoop sha1 cfg env root files i st).2.fs.read (root ++ [f ++ ".torrent"])).isSome
        = true) ∧
    (∀ e ∈ (buildLoop sha1 cfg env root files i st).2.fs,
      e ∈ st.fs ∨ ∃ f ∈ files, e.1 = root ++ [f ++ ".torrent"]) ∧
    (∀ q, (st.fs.read q).isSome = true →
      ((buildLoop sha1 cfg env root files i st).2.fs.read q).isSome = true) := by
  induction files generalizing i st with
  | nil => exact ⟨by simp, fun e he => Or.inl he, fun q hq => hq⟩
  | cons f rest ih =>
    unfold buildLoop at h ⊢
    simp only at h ⊢
    cases hr : (buildIfAbsent sha1 cfg env root f st).1 with
    | some err => simp [hr] at h
    | none =>
      simp only [hr] at h ⊢
      obtain ⟨a1, a2, a3⟩ := buildIfAbsent_ok sha1 cfg env root f st hr
      cases hsel : selectDone env i with
      | some err => simp [hsel] at h
      | none =>
        simp only [hsel] at h ⊢
        obtain ⟨b1, b2, b3⟩ := ih (i + 1) (buildIfAbsent sha1 cfg env root f st).2 h
        refine ⟨?_, ?_, ?_⟩
        · intro g hg
          rcases List.mem_cons.mp hg with rfl | hg
          · exact b3 _ a1
          · exact b1 g hg
        · intro e he
          rcases b2 e he with he1 | ⟨g, hg, hge⟩
          · rcases a2 e he1 with he2 | he2
            · exact Or.inl he2
            · exact Or.inr ⟨f, List.mem_cons_self _ _, he2⟩
          · exact Or.inr ⟨g, List.mem_cons_of_mem _ hg, hge⟩
        · intro q hq
          exact b3 q (a3 q hq)

theorem CreateTorrentFileIfNotExists_present (cfg : Config) (env : Env) (st : State)
    (root : Path) (info : Info) (mi : Option MetaInfo)
    (h : (st.fs.read (root ++ [info.Name ++ ".torrent"])).isSome = true) :
    (CreateTorrentFileIfNotExists cfg env st root info mi).2 = st := by
  unfold CreateTorrentFileIfNotExists osStat
  by_cases hs : env.statFails (root ++ [info.Name ++ ".torrent"]) = true
  · simp [hs, isNotExist]
  · obtain ⟨b, hb⟩ := Option.isSome_iff_exists.mp h
    simp [hs, hb]

theorem CreateTorrentFileIfNotExists_ok (cfg : Config) (env : Env) (st : State)
    (root : Path) (info : Info) (mi : Option MetaInfo)
    (h : (CreateTorrentFileIfNotExists cfg env st root info mi).1 = none) :
    ((CreateTorrentFileIfNotExists cfg env st root info mi).2.fs.read
      (root ++ [info.Name ++ ".torrent"])).isSome = true := by
  cases hr : st.fs.read (root ++ [info.Name ++ ".torrent"]) with
  | some b =>
    have hp : (st.fs.read (root ++ [info.Name ++ ".torrent"])).isSome = true := by rw [hr]; rfl
    rw [CreateTorrentFileIfNotExists_present cfg env st root info mi hp]
    exact hp
  | none =>
    unfold CreateTorrentFileIfNotExists osStat at h ⊢
    by_cases hs : env.statFails (root ++ [info.Name ++ ".torrent"]) = true
    · simp [hs, isNotExist] at h
    · simp only [hs, Bool.false_eq_true, if_false, hr, isNotExist, if_true] at h ⊢
      obtain ⟨m, -, hfs⟩ := CreateTorrentFile_ok cfg env st root info mi h
      rw [hfs]
      exact (written_fs_facts _ _ _).1

/-- C7: a second run of the create-if-absent path after a successful first run
changes nothing: `BuildTorrentFilesIfNeed` on the same root, and
`CreateTorrentFileIfNotExists` for the same descriptor name, find the file
where the first run left it and leave the file system and the list of handle
calls as they were, whatever the clock, the context, the faults, or the
supplied descriptor and envelope are the second time. -/
theorem create_if_absent_idempotent (sha1 : Bytes → Digest) (cfg : Config) :
    (∀ (env1 env2 : Env) (st0 st1 : State) (root : Path),
      BuildTorrentFilesIfNeed sha1 cfg env1 st0 root = (none, st1) →
      (∀ files, allSegmentFiles cfg env2 st1.fs root = .ok files →
        ∀ f ∈ files, (st1.fs.read (root ++ [f ++ ".torrent"])).isSome = true) ∧
      (BuildTorrentFilesIfNeed sha1 cfg env2 st1 root).2 = st1) ∧
    (∀ (env1 env2 : Env) (st0 st1 : State) (root : Path) (info other : Info)
      (mi mi2 : Option MetaInfo),
      CreateTorrentFileIfNotExists cfg env1 st0 root info mi = (none, st1) →
      other.Name = info.Name →
      (st1.fs.read (root ++ [info.Name ++ ".torrent"])).isSome = true ∧
      (CreateTorrentFileIfNotExists cfg env2 st1 root other mi2).2 = st1) := by
  constructor
  · intro env1 env2 st0 st1 root h
    unfold BuildTorrentFilesIfNeed at h ⊢
    cases hseg0 : allSegmentFiles cfg env1 st0.fs root with
    | error err => simp [hseg0] at h
    | ok files0 =>
      simp only [hseg0] at h
      have herr : (buildLoop sha1 cfg env1 root files0 0 st0).1 = none := by rw [h]
      have hst : (buildLoop sha1 cfg env1 root files0 0 st0).2 = st1 := by rw [h]
      obtain ⟨b1, b2, -⟩ := buildLoop_ok sha1 cfg env1 root files0 0 st0 herr
      rw [hst] at b1 b2
      have hprobe : ∀ files, allSegmentFiles cfg env2 st1.fs root = .ok files →
          ∀ f ∈ files, (st1.fs.read (root ++ [f ++ ".torrent"])).isSome = true := by
        intro files1 hseg1 f hf
        obtain ⟨e, he, h1, h2, h3, h4⟩ :=
          (mem_allSegmentFiles cfg env2 st1.fs root files1 hseg1 f).mp hf
        apply b1
        rw [mem_allSegmentFiles cfg env1 st0.fs root files0 hseg0 f]
        rcases b2 e he with he0 | ⟨g, -, hg⟩
        · exact ⟨e, he0, h1, h2, h3, h4⟩
        · exfalso
          rw [h1] at hg
          have hfg : f = g ++ ".torrent" := by simpa using hg
          rw [hfg] at h4
          exact Ext_torrent_ne_seg g h4
      refine ⟨hprobe, ?_⟩
      cases hseg1 : allSegmentFiles cfg env2 st1.fs root with
      | error err => rfl
      | ok files1 =>
        simp only
        exact buildLoop_present sha1 cfg env2 root files1 0 st1 (hprobe files1 hseg1)
  · intro env1 env2 st0 st1 root info other mi mi2 h hname
    have herr : (CreateTorrentFileIfNotExists cfg env1 st0 root info mi).1 = none := by rw [h]
    have hst : (CreateTorrentFileIfNotExists cfg env1 st0 root info mi).2 = st1 := by rw [h]
    have hp := CreateTorrentFileIfNotExists_ok cfg env1 st0 root info mi herr
    rw [hst] at hp
    refine ⟨hp, ?_⟩
    apply CreateTorrentFileIfNotExists_present
    rw [hname]
    exact hp

/-- C7 witness: after building the descriptors of two segment files, a second run
under a later clock and a cancelled context leaves the state as it is, and so
does a second `CreateTorrentFileIfNotExists` with another envelope. -/
theorem create_if_absent_idempotent_witness :
    (BuildTorrentFilesIfNeed toyHash demoConfig quietEnv segState ["snapshots"]).1 = none ∧
    (BuildTorrentFilesIfNeed toyHash demoConfig laterEnv
        (BuildTorrentFilesIfNeed toyHash demoConfig quietEnv segState ["snapshots"]).2
        ["snapshots"]).2
      = (BuildTorrentFilesIfNeed toyHash demoConfig quietEnv segState ["snapshots"]).2 ∧
    (CreateTorrentFileIfNotExists demoConfig laterEnv
        (CreateTorrentFileIfNotExists demoConfig quietEnv segState ["snapshots"] demoInfo none).2
        ["snapshots"] demoInfo (some demoMetaInfo)).2
      = (CreateTorrentFileIfNotExists demoConfig quietEnv segState ["snapshots"] demoInfo none).2 :=
  ⟨by decide,
   ((create_if_absent_idempotent toyHash demoConfig).1 quietEnv laterEnv segState _ ["snapshots"]
     (Prod.ext (by decide) rfl)).2,
   ((create_if_absent_idempotent toyHash demoConfig).2 quietEnv laterEnv segState _ ["snapshots"]
     demoInfo demoInfo none (some demoMetaInfo) (Prod.ext (by decide) rfl) rfl).2⟩

theorem traceShape_some_err {i todo : Nat} {new : List Call} {e : Error}
    (h : traceShape i todo new (some e)) : ∃ c, new.getLast? = some c ∧ c.ret = some e := by
  induction new generalizing i todo with
  | nil => exact absurd h.2 (by simp)
  | cons d rest ih =>
    obtain ⟨_, _, hd⟩ := h
    cases hr : d.ret with
    | some e1 =>
      rw [hr] at hd
      obtain ⟨rfl, herr⟩ := hd
      cases herr
      exact ⟨d, rfl, hr⟩
    | none =>
      rw [hr] at hd
      obtain ⟨c, hc, hce⟩ := ih hd
      refine ⟨c, ?_, hce⟩
      cases rest with
      | nil => simp at hc
      | cons r rs => simpa [List.getLast?_cons_cons] using hc

theorem verifyTorrent_cases {σ : Type} (sha1 : Bytes → Digest) (fs : FS) (obs : Obstacles)
    (info : Info) (root : Path) (consumer : Consumer σ) (s : σ) :
    (∃ e, openSpan fs obs root info.Name info.UpvertedFiles [] = .error e ∧
      (verifyTorrent sha1 fs obs info root consumer s).err = some e ∧
      (verifyTorrent sha1 fs obs info root consumer s).calls = []) ∨
    (∃ span, openSpan fs obs root info.Name info.UpvertedFiles [] = .ok span ∧
      traceShape 0 info.NumPieces (verifyTorrent sha1 fs obs info root consumer s).calls
        (verifyTorrent sha1 fs obs info root consumer s).err ∧
      (∀ c ∈ (verifyTorrent sha1 fs obs info root consumer s).calls,
        c.good = decide (sha1 (span.ReadAt (info.Piece c.index).Offset
          (info.Piece c.index).Length) = (info.Piece c.index).Hash)) ∧
      ∀ c ∈ (verifyTorrent sha1 fs obs info root consumer s).calls,
        ∃ t, c.ret = (consumer t c.index c.good).1) := by
  unfold verifyTorrent
  cases hopen : openSpan fs obs root info.Name info.UpvertedFiles [] with
  | error e => exact Or.inl ⟨e, rfl, rfl, rfl⟩
  | ok span =>
    right
    obtain ⟨new, h1, h2, h3, h4⟩ :=
      verifyLoop_trace sha1 info span consumer info.NumPieces 0 s []
    rw [List.nil_append] at h1
    simp only
    rw [h1]
    exact ⟨span, rfl, h2, h3, h4⟩

theorem getD_generatePieces (sha1 : Bytes → Digest) (pieceLength : Nat) (data : Bytes)
    (i : Nat) (h : i < (generatePieces sha1 pieceLength data).length) :
    (generatePieces sha1 pieceLength data).getD i []
      = sha1 (slice data (i * pieceLength) (min (i * pieceLength + pieceLength) data.length)) := by
  unfold generatePieces at h ⊢
  simp only [List.length_map, List.length_range] at h
  rw [List.getD_eq_getElem?_getD, List.getElem?_map, List.getElem?_range h]
  rfl

/-- C5 as stated fails: for a file name with a directory part the build succeeds,
but the descriptor is named by the base name and verification looks for
`root/a.seg`, which does not exist; no piece is reported. -/
theorem verify_after_build_counterexample :
    ∃ D, BuildInfoBytesForFile toyHash demoConfig nestedFS ["snapshots"] ["sub", "a.seg"]
        = .ok D ∧
      D.NumPieces = 2 ∧
      (verifyTorrent toyHash nestedFS noObstacles D ["snapshots"] okConsumer ()).err
        = some (Error.notExist ["snapshots", "a.seg"]) ∧
      (verifyTorrent toyHash nestedFS noObstacles D ["snapshots"] okConsumer ()).calls = [] :=
  ⟨builtInfo, rfl, by decide, by decide, by decide⟩

/-- C5, amended: for a file name that is a single path component (a file directly
in `root`) for which `BuildInfoBytesForFile` succeeds with descriptor `D`, and
a consumer that never returns an error, `verifyTorrent` on the unchanged file
system returns nil, reports every piece index of `D` once in ascending order,
and every reported flag is true. -/
theorem verify_after_build {σ : Type} (sha1 : Bytes → Digest) (cfg : Config) (fs : FS)
    (obs : Obstacles) (root : Path) (f : String) (D : Info) (consumer : Consumer σ) (s : σ)
    (hbuild : BuildInfoBytesForFile sha1 cfg fs root [f] = .ok D)
    (hcons : ∀ (t : σ) (i : Nat) (good : Bool), (consumer t i good).1 = none) :
    (verifyTorrent sha1 fs obs D root consumer s).err = none ∧
    (verifyTorrent sha1 fs obs D root consumer s).calls.map Call.index = List.range D.NumPieces ∧
    ∀ c ∈ (verifyTorrent sha1 fs obs D root consumer s).calls, c.good = true := by
  obtain ⟨content, hread, -, hD⟩ := BuildInfoBytesForFile_single sha1 cfg fs root f D hbuild
  have hup : D.UpvertedFiles = [{ Length := content.length, Path := [] }] := by
    rw [hD]; rfl
  have hname : D.Name = f := by rw [hD]
  have htotal : D.TotalLength = content.length := by
    simp [Info.TotalLength, hup]
  have hopen : openSpan fs obs root D.Name D.UpvertedFiles [] = .ok [content] := by
    rw [openSpan_ok_iff, hup, hname]
    refine ⟨?_, by simp [hread]⟩
    intro file hfile
    rw [List.mem_singleton] at hfile
    subst hfile
    exact ⟨content, mmapFile_regular fs obs _ content (by simpa using hread), rfl⟩
  rcases verifyTorrent_cases sha1 fs obs D root consumer s with ⟨e, he, -, -⟩ | ⟨span, hs, h2, h3, h4⟩
  · rw [hopen] at he
    cases he
  · rw [hopen] at hs
    cases hs
    have hall : ∀ c ∈ (verifyTorrent sha1 fs obs D root consumer s).calls, c.ret = none := by
      intro c hc
      obtain ⟨t, ht⟩ := h4 c hc
      rw [ht, hcons]
    obtain ⟨herr, hlen⟩ := traceShape_all_none h2 hall
    have hidx := traceShape_index h2
    rw [hlen, ← List.range_eq_range'] at hidx
    refine ⟨herr, hidx, ?_⟩
    intro c hc
    have hci : c.index < D.NumPieces := by
      have : c.index ∈ (verifyTorrent sha1 fs obs D root consumer s).calls.map Call.index :=
        List.mem_map_of_mem _ hc
      rw [hidx] at this
      exact List.mem_range.mp this
    rw [h3 c hc, ReadAt_eq]
    have hpieces : D.Pieces = generatePieces sha1 D.PieceLength content := by rw [hD]
    simp only [Piece.Offset, Piece.Length, Piece.Hash, Info.Piece, htotal, hpieces,
      decide_eq_true_eq]
    rw [getD_generatePieces sha1 D.PieceLength content c.index
      (by rw [← hpieces]; exact hci)]
    simp [slice]

/-- C5 witness: the descriptor built for `a.seg` of `segState` verifies. -/
theorem verify_after_build_witness :
    BuildInfoBytesForFile toyHash demoConfig segState.fs ["snapshots"] ["a.seg"]
      = .ok builtInfo ∧
    (verifyTorrent toyHash segState.fs noObstacles builtInfo ["snapshots"] okConsumer ()).err = none ∧
    (verifyTorrent toyHash segState.fs noObstacles builtInfo ["snapshots"] okConsumer ()).calls.map
      Call.index = List.range builtInfo.NumPieces ∧
    ∀ c ∈ (verifyTorrent toyHash segState.fs noObstacles builtInfo ["snapshots"] okConsumer ()).calls,
      c.good = true :=
  ⟨rfl, verify_after_build toyHash demoConfig segState.fs noObstacles ["snapshots"] "a.seg" builtInfo
    okConsumer () rfl (fun _ _ _ => rfl)⟩

/-- C6 as stated fails: `verifyTorrent` takes no context. With the caller's
context done from the first piece on, the scan of `demoInfo` still reports
piece 1 and returns nil, not the context's error. -/
theorem verifyTorrent_cancellation_counterexample :
    laterEnv.ctx.isDone 0 = true ∧
      (verifyTorrent toyHash demoFS noObstacles demoInfo ["snapshots"] okConsumer ()).err = none ∧
      (verifyTorrent toyHash demoFS noObstacles demoInfo ["snapshots"] okConsumer ()).err
        ≠ some laterEnv.ctx.Err ∧
      (⟨1, false, none⟩ : Call)
        ∈ (verifyTorrent toyHash demoFS noObstacles demoInfo ["snapshots"] okConsumer ()).calls := by
  decide

/-- C6, amended: `verifyTorrent` checks no cancellation signal; its scan is cut
short only by an error the consumer returns. Every run ends in one of three
ways: a file fails to open or match and no call is made; or nil is returned
after the calls for all indices `0..NumPieces-1`; or the last call made
returned an error `e`, which is the result, with the calls being those for
`0..k` where `k` is the index of that last call. -/
theorem verifyTorrent_stops_only_on_consumer_error {σ : Type} (sha1 : Bytes → Digest)
    (fs : FS) (obs : Obstacles) (info : Info) (root : Path) (consumer : Consumer σ) (s : σ) :
    (∃ e, openSpan fs obs root info.Name info.UpvertedFiles [] = .error e ∧
      (verifyTorrent sha1 fs obs info root consumer s).err = some e ∧
      (verifyTorrent sha1 fs obs info root consumer s).calls = []) ∨
    ((verifyTorrent sha1 fs obs info root consumer s).err = none ∧
      (verifyTorrent sha1 fs obs info root consumer s).calls.map Call.index
        = List.range info.NumPieces ∧
      ∀ c ∈ (verifyTorrent sha1 fs obs info root consumer s).calls, c.ret = none) ∨
    (∃ c e, (verifyTorrent sha1 fs obs info root consumer s).calls.getLast? = some c ∧
      c.ret = some e ∧ (∃ t, (consumer t c.index c.good).1 = some e) ∧
      (verifyTorrent sha1 fs obs info root consumer s).err = some e ∧
      (verifyTorrent sha1 fs obs info root consumer s).calls.map Call.index
        = List.range (c.index + 1)) := by
  rcases verifyTorrent_cases sha1 fs obs info root consumer s with h | ⟨span, -, h2, -, h4⟩
  · exact Or.inl h
  · right
    cases herr : (verifyTorrent sha1 fs obs info root consumer s).err with
    | none =>
      left
      rw [herr] at h2
      obtain ⟨hlen, hall⟩ := traceShape_nil_err h2
      refine ⟨rfl, ?_, hall⟩
      rw [traceShape_index h2, hlen, List.range_eq_range']
    | some e =>
      right
      rw [herr] at h2
      obtain ⟨c, hc, hce⟩ := traceShape_some_err h2
      have hmem : c ∈ (verifyTorrent sha1 fs obs info root consumer s).calls :=
        List.mem_of_getLast?_eq_some hc
      obtain ⟨-, hlen⟩ := traceShape_failed h2 hmem hce
      obtain ⟨t, ht⟩ := h4 c hmem
      refine ⟨c, e, hc, hce, ⟨t, by rw [← ht, hce]⟩, rfl, ?_⟩
      rw [traceShape_index h2, List.range_eq_range']
      congr 1
      omega

end Downloader
